import Mathlib

/-!
Verification development for the automotive parts supplier portal backend
(`backend/server.py`).

Modelling conventions of the shallow embedding:
* Mongo collections are Lean lists; `find_one` is `List.find?` (first match in
  natural/insertion order), `update_one` replaces the first matching element,
  `insert_one` appends, `delete_one` erases the first matching element.
* `uuid4` id generation is modelled by a `nextId : Nat` counter in the state:
  each generated id is the current counter value, which is then incremented.
* Python floats are idealised as exact rationals (`ℚ`); the algorithms use
  only arithmetic, comparison and absolute value, which the code performs on
  the numeric values themselves.
* Timestamps (`created_at` / `updated_at`) and binary file contents are not
  modelled: no claim depends on them, and no algorithm in the source reads
  them back.
* Pydantic partial-update payloads with `exclude_unset=True` are modelled as
  structures of `Option` fields where `none` means "field absent from the
  payload or explicitly null" — both cases are skipped identically by the
  source (`if value is not None and ...`).
* Pandas cells are modelled as `Option` values, `none` playing the role of
  `NaN` (`pd.isna`/`pd.notna`).
-/

namespace Portal

/-- Embedded child part record (`ChildPart` pydantic model). -/
structure ChildPart where
  id : Nat
  identifier : String
  name : String
  description : Option String
  country_of_origin : String
  weight_kg : ℚ
  weight_lbs : Option ℚ
  value_usd : ℚ
  aluminum_content_percent : ℚ
  steel_content_percent : ℚ
  has_russian_content : Bool
  russian_content_percent : ℚ
  russian_content_description : Option String
  manufacturing_method : Option String
  document_ids : List Nat
  is_complete : Bool
deriving Repr, DecidableEq

/-- Parent part record (`ParentPart` pydantic model). -/
structure ParentPart where
  id : Nat
  sku : String
  name : String
  description : Option String
  supplier_id : Nat
  status : String
  total_weight_kg : ℚ
  total_value_usd : ℚ
  country_of_origin : Option String
  child_parts : List ChildPart
  document_ids : List Nat
deriving Repr, DecidableEq

/-- Document metadata record (`Document` pydantic model); binary content,
stored name and file metadata are elided. -/
structure Document where
  id : Nat
  supplier_id : Nat
  original_name : String
  parent_part_ids : List Nat
  child_part_ids : List Nat
  version : Nat
deriving Repr, DecidableEq

/-- A value occurring in an audit-log field change (`old`/`new` entries of the
`field_changes` dicts): a string, a rational number, a boolean, an entity id
or Python `None`. -/
inductive FVal where
  | vStr : String → FVal
  | vRat : ℚ → FVal
  | vBool : Bool → FVal
  | vId : Nat → FVal
  | vIds : List Nat → FVal
  | vNone : FVal
deriving Repr, DecidableEq

/-- One `{"field": ..., "old": ..., "new": ...}` dict; a missing `old` or
`new` key is `none`. -/
structure FieldChange where
  field : String
  old : Option FVal
  new : Option FVal
deriving Repr, DecidableEq

/-- Audit log record (`AuditLog` pydantic model), timestamp elided. -/
structure AuditLog where
  id : Nat
  user_id : Nat
  user_email : String
  action : String
  entity_type : String
  entity_id : Nat
  field_changes : List FieldChange
  supplier_id : Option Nat
deriving Repr, DecidableEq

/-- The acting user as far as the part/document routes read it: id, email and
role (`"admin"` or `"supplier"`). -/
structure User where
  id : Nat
  email : String
  role : String
deriving Repr, DecidableEq

/-- The mutable database state touched by the part, document and audit
routes, plus the fresh-id counter for `uuid4`. -/
structure State where
  parent_parts : List ParentPart
  documents : List Document
  audit_logs : List AuditLog
  nextId : Nat
deriving Repr, DecidableEq

/-- HTTPException: status code and detail string. -/
structure HErr where
  code : Nat
  detail : String
deriving Repr, DecidableEq

/-- The fixed kg→lbs factor `2.20462` used by the source. -/
def lbsPerKg : ℚ := 220462 / 100000

/-- `calculate_part_status` (server.py lines 257-279), translated clause by
clause: empty child list → `"incomplete"`; weight mismatch beyond the 1%
tolerance (when the parent weight is positive) → `"needs_review"`; all
children complete → `"completed"`; otherwise `"incomplete"`. -/
def calculate_part_status (parent_part : ParentPart) : String :=
  let child_parts := parent_part.child_parts
  if child_parts.isEmpty then "incomplete"
  else
    let all_complete := child_parts.all (fun cp => cp.is_complete)
    let child_weight_sum := (child_parts.map (fun cp => cp.weight_kg)).sum
    let parent_weight := parent_part.total_weight_kg
    if 0 < parent_weight ∧ |child_weight_sum - parent_weight| / parent_weight > 1 / 100 then
      "needs_review"
    else if all_complete then "completed"
    else "incomplete"

/-- The status derivation as worded by the specification (§4.1): the priority
order of the three outcomes, written independently of the source. -/
def statusSpec (p : ParentPart) : String :=
  if p.child_parts = [] then "incomplete"
  else if 0 < p.total_weight_kg ∧
      |((p.child_parts.map (fun c => c.weight_kg)).sum) - p.total_weight_kg| / p.total_weight_kg
        > 1 / 100 then
    "needs_review"
  else if ∀ c ∈ p.child_parts, c.is_complete = true then "completed"
  else "incomplete"

/-- Replace the first element satisfying `p` by its image under `f`
(Mongo `update_one` on a list collection, or an in-place list index write). -/
def updateFirst (l : List α) (p : α → Bool) (f : α → α) : List α :=
  match l with
  | [] => []
  | x :: xs => if p x then f x :: xs else x :: updateFirst xs p f

/-- `db.parent_parts.update_one({"id": pid}, ...)`: rewrite the first stored
part with id `pid` by `f`. -/
def modifyPart (st : State) (pid : Nat) (f : ParentPart → ParentPart) : State :=
  { st with parent_parts := updateFirst st.parent_parts (fun p => p.id == pid) f }

/-- Owner scoping applied by every part/document query: a supplier only sees
its own records, any other role sees all
(`if current_user['role'] == 'supplier': query['supplier_id'] = ...`). -/
def scopeOk (u : User) (sid : Nat) : Bool :=
  u.role != "supplier" || sid == u.id

/-- `db.parent_parts.find_one(query)` for the scoped single-part query. -/
def findPart (s : State) (u : User) (pid : Nat) : Option ParentPart :=
  s.parent_parts.find? (fun p => p.id == pid && scopeOk u p.supplier_id)

/-- The `supplier_id` recorded on audit entries by the part/child/document
routes: `current_user['id'] if current_user['role'] == 'supplier' else None`. -/
def actorScope (u : User) : Option Nat :=
  if u.role == "supplier" then some u.id else none

/-- `create_audit_log` (lines 235-255): build one `AuditLog` record (fresh
id) and append it to the `audit_logs` collection. -/
def create_audit_log (s : State) (u : User) (action entity_type : String)
    (entity_id : Nat) (field_changes : List FieldChange) (supplier_id : Option Nat) :
    State :=
  { s with
    audit_logs := s.audit_logs ++
      [{ id := s.nextId, user_id := u.id, user_email := u.email, action := action,
         entity_type := entity_type, entity_id := entity_id,
         field_changes := field_changes, supplier_id := supplier_id }],
    nextId := s.nextId + 1 }

/-- Set the stored `status` of part `pid` to its recomputed value — the
`updated_part = find_one(...); new_status = calculate_part_status(...);
update_one(..., {"$set": {"status": new_status}})` snippet repeated after
every child mutation and parent edit. -/
def recalcStatus (s : State) (pid : Nat) : State :=
  { s with
    parent_parts := updateFirst s.parent_parts (fun p => p.id == pid)
      (fun p => { p with status := calculate_part_status p }) }

/-- Encode a Python `str`-or-`None` value. -/
def fvalOStr : Option String → FVal
  | none => FVal.vNone
  | some v => FVal.vStr v

/-- `ParentPartCreate` payload. -/
structure ParentPartCreate where
  sku : String
  name : String
  description : Option String
  country_of_origin : Option String
  total_weight_kg : ℚ
  total_value_usd : ℚ
deriving Repr, DecidableEq

/-- `ParentPartUpdate` payload; `none` = field absent (or null). -/
structure ParentPartUpdate where
  sku : Option String
  name : Option String
  description : Option String
  country_of_origin : Option String
  total_weight_kg : Option ℚ
  total_value_usd : Option ℚ
deriving Repr, DecidableEq

/-- `ChildPartCreate` payload. -/
structure ChildPartCreate where
  identifier : String
  name : String
  description : Option String
  country_of_origin : String
  weight_kg : ℚ
  value_usd : ℚ
  aluminum_content_percent : ℚ
  steel_content_percent : ℚ
  has_russian_content : Bool
  russian_content_percent : ℚ
  russian_content_description : Option String
  manufacturing_method : Option String
deriving Repr, DecidableEq

/-- `ChildPartUpdate` payload; `none` = field absent (or null). -/
structure ChildPartUpdate where
  identifier : Option String
  name : Option String
  description : Option String
  country_of_origin : Option String
  weight_kg : Option ℚ
  value_usd : Option ℚ
  aluminum_content_percent : Option ℚ
  steel_content_percent : Option ℚ
  has_russian_content : Option Bool
  russian_content_percent : Option ℚ
  russian_content_description : Option String
  manufacturing_method : Option String
deriving Repr, DecidableEq

/-- One step of the `for field, value in ...model_dump(exclude_unset=True)`
diff loop for a required string field: a change is recorded when the field is
present and its value differs from the stored one. -/
def diffStr (field : String) (old : String) : Option String → List FieldChange
  | none => []
  | some v => if v = old then [] else [⟨field, some (FVal.vStr old), some (FVal.vStr v)⟩]

/-- Diff step for an optional (nullable) stored string field. -/
def diffOStr (field : String) (old : Option String) : Option String → List FieldChange
  | none => []
  | some v => if old = some v then [] else [⟨field, some (fvalOStr old), some (FVal.vStr v)⟩]

/-- Diff step for a numeric field. -/
def diffRat (field : String) (old : ℚ) : Option ℚ → List FieldChange
  | none => []
  | some v => if v = old then [] else [⟨field, some (FVal.vRat old), some (FVal.vRat v)⟩]

/-- Diff step for a boolean field. -/
def diffBool (field : String) (old : Bool) : Option Bool → List FieldChange
  | none => []
  | some v => if v = old then [] else [⟨field, some (FVal.vBool old), some (FVal.vBool v)⟩]

/-- The change list computed by `update_part` (lines 549-552): fields in
`ParentPartUpdate` declaration order, keeping those that are present in the
payload and differ from the stored value. -/
def parentChanges (p : ParentPart) (pl : ParentPartUpdate) : List FieldChange :=
  diffStr "sku" p.sku pl.sku ++
  diffStr "name" p.name pl.name ++
  diffOStr "description" p.description pl.description ++
  diffOStr "country_of_origin" p.country_of_origin pl.country_of_origin ++
  diffRat "total_weight_kg" p.total_weight_kg pl.total_weight_kg ++
  diffRat "total_value_usd" p.total_value_usd pl.total_value_usd

/-- Apply the `updates` dict of `update_part` to the stored part: every
present payload field overwrites the stored one (writing an equal value is a
no-op, so applying also the unchanged present fields is equivalent to the
source's changed-fields-only `$set`). -/
def parentApply (p : ParentPart) (pl : ParentPartUpdate) : ParentPart :=
  { p with
    sku := pl.sku.getD p.sku,
    name := pl.name.getD p.name,
    description := match pl.description with | none => p.description | some v => some v,
    country_of_origin :=
      match pl.country_of_origin with | none => p.country_of_origin | some v => some v,
    total_weight_kg := pl.total_weight_kg.getD p.total_weight_kg,
    total_value_usd := pl.total_value_usd.getD p.total_value_usd }

/-- The change list computed by `update_child_part` (lines 697-700): fields
in `ChildPartUpdate` declaration order. -/
def childChanges (c : ChildPart) (cu : ChildPartUpdate) : List FieldChange :=
  diffStr "identifier" c.identifier cu.identifier ++
  diffStr "name" c.name cu.name ++
  diffOStr "description" c.description cu.description ++
  diffStr "country_of_origin" c.country_of_origin cu.country_of_origin ++
  diffRat "weight_kg" c.weight_kg cu.weight_kg ++
  diffRat "value_usd" c.value_usd cu.value_usd ++
  diffRat "aluminum_content_percent" c.aluminum_content_percent cu.aluminum_content_percent ++
  diffRat "steel_content_percent" c.steel_content_percent cu.steel_content_percent ++
  diffBool "has_russian_content" c.has_russian_content cu.has_russian_content ++
  diffRat "russian_content_percent" c.russian_content_percent cu.russian_content_percent ++
  diffOStr "russian_content_description" c.russian_content_description
    cu.russian_content_description ++
  diffOStr "manufacturing_method" c.manufacturing_method cu.manufacturing_method

/-- Apply the merged fields of `update_child_part` to the stored child. -/
def childApply (c : ChildPart) (cu : ChildPartUpdate) : ChildPart :=
  { c with
    identifier := cu.identifier.getD c.identifier,
    name := cu.name.getD c.name,
    description := match cu.description with | none => c.description | some v => some v,
    country_of_origin := cu.country_of_origin.getD c.country_of_origin,
    weight_kg := cu.weight_kg.getD c.weight_kg,
    value_usd := cu.value_usd.getD c.value_usd,
    aluminum_content_percent :=
      cu.aluminum_content_percent.getD c.aluminum_content_percent,
    steel_content_percent := cu.steel_content_percent.getD c.steel_content_percent,
    has_russian_content := cu.has_russian_content.getD c.has_russian_content,
    russian_content_percent :=
      cu.russian_content_percent.getD c.russian_content_percent,
    russian_content_description :=
      match cu.russian_content_description with
      | none => c.russian_content_description
      | some v => some v,
    manufacturing_method :=
      match cu.manufacturing_method with | none => c.manufacturing_method | some v => some v }

/-- The completeness check on a `ChildPartCreate` payload
(`add_child_part`, lines 629-635): Python truthiness of the three strings
plus positivity of weight and value. -/
def childCreateComplete (cd : ChildPartCreate) : Bool :=
  cd.identifier != "" && cd.name != "" && cd.country_of_origin != "" &&
    decide (0 < cd.weight_kg) && decide (0 < cd.value_usd)

/-- The completeness recomputation on a stored child record
(`update_child_part` lines 710-717, and the import upserts). -/
def childStoredComplete (c : ChildPart) : Bool :=
  c.identifier != "" && c.name != "" && c.country_of_origin != "" &&
    decide (0 < c.weight_kg) && decide (0 < c.value_usd)

/-- The `child['is_complete'] = all([...])` reassignment applied after a
child merge or construction. -/
def withRecomputedComplete (c : ChildPart) : ChildPart :=
  { c with is_complete := childStoredComplete c }

/-- `GET /parts/{part_id}` (`get_part`, lines 481-490). -/
def get_part (s : State) (u : User) (pid : Nat) : Except HErr ParentPart :=
  match findPart s u pid with
  | none => Except.error ⟨404, "Part not found"⟩
  | some p => Except.ok p

/-- `POST /parts` (`create_part`, lines 492-530): duplicate-SKU check for the
caller's id, insert with status `"incomplete"` and no children, one audit
entry recording the SKU. -/
def create_part (s : State) (u : User) (pl : ParentPartCreate) :
    State × Except HErr ParentPart :=
  if s.parent_parts.any (fun p => p.sku == pl.sku && p.supplier_id == u.id) then
    (s, Except.error ⟨400, "SKU already exists for this supplier"⟩)
  else
    let part : ParentPart :=
      { id := s.nextId, sku := pl.sku, name := pl.name, description := pl.description,
        supplier_id := u.id, status := "incomplete",
        total_weight_kg := pl.total_weight_kg, total_value_usd := pl.total_value_usd,
        country_of_origin := pl.country_of_origin, child_parts := [], document_ids := [] }
    let s1 : State :=
      { s with parent_parts := s.parent_parts ++ [part], nextId := s.nextId + 1 }
    let s2 := create_audit_log s1 u "create" "parent_part" part.id
      [⟨"sku", none, some (FVal.vStr part.sku)⟩] (actorScope u)
    (s2, Except.ok part)

/-- `PUT /parts/{part_id}` (`update_part`, lines 532-573): scoped fetch,
field diff, conditional `$set` + status recompute + single audit entry. -/
def update_part (s : State) (u : User) (pid : Nat) (pl : ParentPartUpdate) :
    State × Except HErr Unit :=
  match findPart s u pid with
  | none => (s, Except.error ⟨404, "Part not found"⟩)
  | some part =>
    let changes := parentChanges part pl
    if changes.isEmpty then (s, Except.ok ())
    else
      let l1 := updateFirst s.parent_parts (fun p => p.id == pid) (fun p => parentApply p pl)
      let s1 : State := { s with parent_parts := l1 }
      let s2 := recalcStatus s1 pid
      let s3 := create_audit_log s2 u "update" "parent_part" pid changes (actorScope u)
      (s3, Except.ok ())

/-- `DELETE /parts/{part_id}` (`delete_part`, lines 575-597). -/
def delete_part (s : State) (u : User) (pid : Nat) : State × Except HErr Unit :=
  match findPart s u pid with
  | none => (s, Except.error ⟨404, "Part not found"⟩)
  | some part =>
    let s1 : State := { s with parent_parts := s.parent_parts.eraseP (fun p => p.id == pid) }
    let s2 := create_audit_log s1 u "delete" "parent_part" pid
      [⟨"sku", some (FVal.vStr part.sku), none⟩] (actorScope u)
    (s2, Except.ok ())

/-- `POST /parts/{part_id}/children` (`add_child_part`, lines 601-665):
build the child (pounds derived via the fixed factor, completeness from the
payload), `$push` it, recompute the parent status, one audit entry. -/
def add_child_part (s : State) (u : User) (pid : Nat) (cd : ChildPartCreate) :
    State × Except HErr ChildPart :=
  match findPart s u pid with
  | none => (s, Except.error ⟨404, "Parent part not found"⟩)
  | some _ =>
    let child : ChildPart :=
      { id := s.nextId, identifier := cd.identifier, name := cd.name,
        description := cd.description, country_of_origin := cd.country_of_origin,
        weight_kg := cd.weight_kg, weight_lbs := some (cd.weight_kg * lbsPerKg),
        value_usd := cd.value_usd,
        aluminum_content_percent := cd.aluminum_content_percent,
        steel_content_percent := cd.steel_content_percent,
        has_russian_content := cd.has_russian_content,
        russian_content_percent := cd.russian_content_percent,
        russian_content_description := cd.russian_content_description,
        manufacturing_method := cd.manufacturing_method,
        document_ids := [], is_complete := childCreateComplete cd }
    let s1 : State :=
      { s with
        parent_parts := updateFirst s.parent_parts (fun p => p.id == pid)
          (fun p => { p with child_parts := p.child_parts ++ [child] }),
        nextId := s.nextId + 1 }
    let s2 := recalcStatus s1 pid
    let s3 := create_audit_log s2 u "create" "child_part" child.id
      [⟨"identifier", none, some (FVal.vStr child.identifier)⟩] (actorScope u)
    (s3, Except.ok child)

/-- The child record written back by `update_child_part` when the change
list is non-empty (lines 700-717): the merged fields, `weight_lbs` refreshed
when `weight_kg` is among the changes, and `is_complete` recomputed on the
merged record. -/
def childMergeResult (old : ChildPart) (cu : ChildPartUpdate) : ChildPart :=
  let merged := childApply old cu
  let merged1 :=
    if (childChanges old cu).any (fun c => c.field == "weight_kg") then
      { merged with weight_lbs := some (merged.weight_kg * lbsPerKg) }
    else merged
  withRecomputedComplete merged1

/-- `PUT /parts/{part_id}/children/{child_id}` (`update_child_part`, lines
667-744): find the child by id, diff the payload, and when any field changed:
merge the fields, refresh `weight_lbs` if `weight_kg` changed, recompute
`is_complete`, write the child list back, recompute the parent status and
append one audit entry. -/
def update_child_part (s : State) (u : User) (pid cid : Nat) (cu : ChildPartUpdate) :
    State × Except HErr Unit :=
  match findPart s u pid with
  | none => (s, Except.error ⟨404, "Parent part not found"⟩)
  | some part =>
    match part.child_parts.find? (fun cp => cp.id == cid) with
    | none => (s, Except.error ⟨404, "Child part not found"⟩)
    | some old =>
      let changes := childChanges old cu
      if changes.isEmpty then (s, Except.ok ())
      else
        let newChild := childMergeResult old cu
        let setChild := fun (p : ParentPart) =>
          { p with child_parts :=
              updateFirst p.child_parts (fun cp => cp.id == cid) (fun _ => newChild) }
        let s1 : State :=
          { s with parent_parts := updateFirst s.parent_parts (fun p => p.id == pid) setChild }
        let s2 := recalcStatus s1 pid
        let s3 := create_audit_log s2 u "update" "child_part" cid changes (actorScope u)
        (s3, Except.ok ())

/-- `DELETE /parts/{part_id}/children/{child_id}` (`delete_child_part`,
lines 746-798). -/
def delete_child_part (s : State) (u : User) (pid cid : Nat) :
    State × Except HErr Unit :=
  match findPart s u pid with
  | none => (s, Except.error ⟨404, "Parent part not found"⟩)
  | some part =>
    match part.child_parts.find? (fun cp => cp.id == cid) with
    | none => (s, Except.error ⟨404, "Child part not found"⟩)
    | some deleted =>
      let dropChild := fun (p : ParentPart) =>
        { p with child_parts := p.child_parts.filter (fun cp => cp.id != cid) }
      let s1 : State :=
        { s with parent_parts := updateFirst s.parent_parts (fun p => p.id == pid) dropChild }
      let s2 := recalcStatus s1 pid
      let s3 := create_audit_log s2 u "delete" "child_part" cid
        [⟨"identifier", some (FVal.vStr deleted.identifier), none⟩] (actorScope u)
      (s3, Except.ok ())

/-- `POST /parts/{part_id}/children/{child_id}/duplicate`
(`duplicate_child_part`, lines 800-869): copy the source child into a new
record with fresh id, `_copy`/` (Copy)` suffixes, pounds recomputed from the
source's kilograms, empty document list and `is_complete` forced to
`false`, `$push` it, recompute the status, one audit entry. -/
def duplicate_child_part (s : State) (u : User) (pid cid : Nat) :
    State × Except HErr ChildPart :=
  match findPart s u pid with
  | none => (s, Except.error ⟨404, "Parent part not found"⟩)
  | some part =>
    match part.child_parts.find? (fun cp => cp.id == cid) with
    | none => (s, Except.error ⟨404, "Child part not found"⟩)
    | some source =>
      let new_child : ChildPart :=
        { id := s.nextId,
          identifier := source.identifier ++ "_copy",
          name := source.name ++ " (Copy)",
          description := source.description,
          country_of_origin := source.country_of_origin,
          weight_kg := source.weight_kg,
          weight_lbs := some (source.weight_kg * lbsPerKg),
          value_usd := source.value_usd,
          aluminum_content_percent := source.aluminum_content_percent,
          steel_content_percent := source.steel_content_percent,
          has_russian_content := source.has_russian_content,
          russian_content_percent := source.russian_content_percent,
          russian_content_description := source.russian_content_description,
          manufacturing_method := source.manufacturing_method,
          document_ids := [], is_complete := false }
      let s1 : State :=
        { s with
          parent_parts := updateFirst s.parent_parts (fun p => p.id == pid)
            (fun p => { p with child_parts := p.child_parts ++ [new_child] }),
          nextId := s.nextId + 1 }
      let s2 := recalcStatus s1 pid
      let s3 := create_audit_log s2 u "create" "child_part" new_child.id
        [⟨"duplicated_from", some (FVal.vId cid), some (FVal.vId new_child.id)⟩]
        (actorScope u)
      (s3, Except.ok new_child)

/-- The JSON body returned by `upload_document` (file metadata elided). -/
structure UploadResponse where
  id : Nat
  original_name : String
  duplicate_warning : Bool
deriving Repr, DecidableEq

/-- Append `x` to `l` unless already present (`$addToSet`). -/
def addToSet (l : List Nat) (x : Nat) : List Nat :=
  if x ∈ l then l else l ++ [x]

/-- The per-child reference update of `upload_document` (lines 941-950): add
the document id to the child's reference list when the child is targeted and
does not hold it yet. -/
def uploadRefChild (docId : Nat) (child_ids : List Nat) (cp : ChildPart) : ChildPart :=
  if cp.id ∈ child_ids && !(docId ∈ cp.document_ids) then
    { cp with document_ids := cp.document_ids ++ [docId] }
  else cp

/-- The per-child reference reconciliation of `update_document`
(lines 1059-1074): drop the document id from children leaving the reference
set, add it to newly referenced children. -/
def docSyncChild (did : Nat) (oldIds newIds : List Nat) (cp : ChildPart) : ChildPart :=
  let afterRemove :=
    if cp.id ∈ oldIds && !(cp.id ∈ newIds) then
      { cp with document_ids := cp.document_ids.filter (fun i => i != did) }
    else cp
  if cp.id ∈ newIds && !(cp.id ∈ oldIds) then
    { afterRemove with document_ids := addToSet afterRemove.document_ids did }
  else afterRemove

/-- The per-child scrub of `delete_document` (lines 1120-1129). -/
def docScrubChild (did : Nat) (cp : ChildPart) : ChildPart :=
  if did ∈ cp.document_ids then
    { cp with document_ids := cp.document_ids.filter (fun i => i != did) }
  else cp

/-- `POST /documents/upload` (`upload_document`, lines 882-973): the
duplicate check is a `find_one` on `(supplier_id, original_name)` — its first
match in insertion order determines the new version; the file is stored, the
document inserted, its id added to the referenced parents' and children's
reference lists, and one audit entry appended.  There is no rejection path
for duplicate names; the response only carries `duplicate_warning`. -/
def upload_document (s : State) (u : User) (filename : String)
    (parent_ids child_ids : List Nat) : State × UploadResponse :=
  let existing := s.documents.find?
    (fun d => d.supplier_id == u.id && d.original_name == filename)
  let doc : Document :=
    { id := s.nextId, supplier_id := u.id, original_name := filename,
      parent_part_ids := parent_ids, child_part_ids := child_ids,
      version := match existing with | none => 1 | some e => e.version + 1 }
  let s1 : State :=
    { s with documents := s.documents ++ [doc], nextId := s.nextId + 1 }
  let s2 := parent_ids.foldl (fun st pid =>
    modifyPart st pid (fun p => { p with document_ids := addToSet p.document_ids doc.id })) s1
  let s3 : State :=
    { s2 with parent_parts := s2.parent_parts.map (fun p =>
        if p.supplier_id == u.id then
          { p with child_parts := p.child_parts.map (uploadRefChild doc.id child_ids) }
        else p) }
  let s4 := create_audit_log s3 u "create" "document" doc.id
    [⟨"filename", none, some (FVal.vStr filename)⟩] (actorScope u)
  (s4, ⟨doc.id, filename, existing.isSome⟩)

/-- `DocumentUpdate` payload. -/
structure DocumentUpdate where
  original_name : Option String
  parent_part_ids : Option (List Nat)
  child_part_ids : Option (List Nat)
deriving Repr, DecidableEq

/-- `PUT /documents/{doc_id}` (`update_document`, lines 1006-1096):
rename and reconcile the parent/child reference lists by the
added/removed-id deltas; one audit entry when anything changed. -/
def update_document (s : State) (u : User) (did : Nat) (du : DocumentUpdate) :
    State × Except HErr Unit :=
  match s.documents.find? (fun d => d.id == did && scopeOk u d.supplier_id) with
  | none => (s, Except.error ⟨404, "Document not found"⟩)
  | some doc =>
    let nameChanges :=
      match du.original_name with
      | none => []
      | some v =>
        if v = doc.original_name then []
        else [(⟨"original_name", some (FVal.vStr doc.original_name),
                some (FVal.vStr v)⟩ : FieldChange)]
    let parentDelta :=
      match du.parent_part_ids with
      | none => false
      | some newIds => !((doc.parent_part_ids.filter (fun i => i ∈ newIds)).length ==
          doc.parent_part_ids.length && (newIds.filter (fun i => i ∈ doc.parent_part_ids)).length == newIds.length)
    let parentChangesD :=
      match du.parent_part_ids with
      | none => []
      | some newIds =>
        if parentDelta then
          [(⟨"parent_part_ids", some (FVal.vIds doc.parent_part_ids),
             some (FVal.vIds newIds)⟩ : FieldChange)]
        else ([] : List FieldChange)
    let s1 :=
      match du.parent_part_ids with
      | none => s
      | some newIds =>
        if parentDelta then
          let removed := doc.parent_part_ids.filter (fun i => !(i ∈ newIds))
          let added := newIds.filter (fun i => !(i ∈ doc.parent_part_ids))
          let sA := removed.foldl (fun st pid =>
            modifyPart st pid
              (fun p => { p with document_ids := p.document_ids.filter (fun i => i != did) })) s
          added.foldl (fun st pid =>
            modifyPart st pid
              (fun p => { p with document_ids := addToSet p.document_ids did })) sA
        else s
    let childDelta :=
      match du.child_part_ids with
      | none => false
      | some newIds => !((doc.child_part_ids.filter (fun i => i ∈ newIds)).length ==
          doc.child_part_ids.length && (newIds.filter (fun i => i ∈ doc.child_part_ids)).length == newIds.length)
    let childChangesD :=
      match du.child_part_ids with
      | none => []
      | some newIds =>
        if childDelta then
          [(⟨"child_part_ids", some (FVal.vIds doc.child_part_ids),
             some (FVal.vIds newIds)⟩ : FieldChange)]
        else ([] : List FieldChange)
    let s2 :=
      match du.child_part_ids with
      | none => s1
      | some newIds =>
        if childDelta then
          { s1 with parent_parts := s1.parent_parts.map (fun p =>
              if p.supplier_id == u.id then
                { p with child_parts :=
                    p.child_parts.map (docSyncChild did doc.child_part_ids newIds) }
              else p) }
        else s1
    let changes := nameChanges ++ parentChangesD ++ childChangesD
    if changes.isEmpty then (s2, Except.ok ())
    else
      let applyDoc := fun (d : Document) =>
        { d with
          original_name := (du.original_name).getD d.original_name,
          parent_part_ids :=
            if parentDelta then (du.parent_part_ids).getD d.parent_part_ids
            else d.parent_part_ids,
          child_part_ids :=
            if childDelta then (du.child_part_ids).getD d.child_part_ids
            else d.child_part_ids }
      let s3 :=
        { s2 with documents := updateFirst s2.documents (fun d => d.id == did) applyDoc }
      let s4 := create_audit_log s3 u "update" "document" did changes (actorScope u)
      (s4, Except.ok ())

/-- `DELETE /documents/{doc_id}` (`delete_document`, lines 1098-1143):
remove the file, scrub the document id from every parent's and every child's
reference list, delete the document, one audit entry. -/
def delete_document (s : State) (u : User) (did : Nat) : State × Except HErr Unit :=
  match s.documents.find? (fun d => d.id == did && scopeOk u d.supplier_id) with
  | none => (s, Except.error ⟨404, "Document not found"⟩)
  | some doc =>
    let s1 : State :=
      { s with parent_parts := s.parent_parts.map (fun p =>
          { p with
            document_ids :=
              if did ∈ p.document_ids then p.document_ids.filter (fun i => i != did)
              else p.document_ids,
            child_parts := p.child_parts.map (docScrubChild did) }) }
    let s2 : State := { s1 with documents := s1.documents.eraseP (fun d => d.id == did) }
    let s3 := create_audit_log s2 u "delete" "document" did
      [⟨"filename", some (FVal.vStr doc.original_name), none⟩] (actorScope u)
    (s3, Except.ok ())

/-- One spreadsheet row, using the fixed column schema of the template /
export / import routes.  Cells are `Option`s; `none` models a `NaN` cell
(`pd.isna` / `pd.notna`).  The import route only reads the `parent_*` and
`child_*` input columns; `parent_status`, `child_weight_lbs` and
`child_is_complete` are export-only columns it ignores. -/
structure Row where
  parent_sku : Option String
  parent_name : Option String
  parent_description : Option String
  parent_country_of_origin : Option String
  parent_total_weight_kg : Option ℚ
  parent_total_value_usd : Option ℚ
  parent_status : Option String
  child_identifier : Option String
  child_name : Option String
  child_description : Option String
  child_country_of_origin : Option String
  child_weight_kg : Option ℚ
  child_weight_lbs : Option ℚ
  child_value_usd : Option ℚ
  child_aluminum_percent : Option ℚ
  child_steel_percent : Option ℚ
  child_has_russian_content : Option Bool
  child_russian_percent : Option ℚ
  child_russian_description : Option String
  child_manufacturing_method : Option String
  child_is_complete : Option Bool
deriving Repr, DecidableEq

/-- One parent × child row of `export_parts` (lines 1406-1430). -/
def childRow (p : ParentPart) (c : ChildPart) : Row :=
  { parent_sku := some p.sku, parent_name := some p.name,
    parent_description := p.description,
    parent_country_of_origin := p.country_of_origin,
    parent_total_weight_kg := some p.total_weight_kg,
    parent_total_value_usd := some p.total_value_usd,
    parent_status := some p.status,
    child_identifier := some c.identifier, child_name := some c.name,
    child_description := c.description,
    child_country_of_origin := some c.country_of_origin,
    child_weight_kg := some c.weight_kg, child_weight_lbs := c.weight_lbs,
    child_value_usd := some c.value_usd,
    child_aluminum_percent := some c.aluminum_content_percent,
    child_steel_percent := some c.steel_content_percent,
    child_has_russian_content := some c.has_russian_content,
    child_russian_percent := some c.russian_content_percent,
    child_russian_description := c.russian_content_description,
    child_manufacturing_method := c.manufacturing_method,
    child_is_complete := some c.is_complete }

/-- The parent-only row `export_parts` emits for a childless parent
(lines 1433-1442): all child columns are absent. -/
def parentOnlyRow (p : ParentPart) : Row :=
  { parent_sku := some p.sku, parent_name := some p.name,
    parent_description := p.description,
    parent_country_of_origin := p.country_of_origin,
    parent_total_weight_kg := some p.total_weight_kg,
    parent_total_value_usd := some p.total_value_usd,
    parent_status := some p.status,
    child_identifier := none, child_name := none, child_description := none,
    child_country_of_origin := none, child_weight_kg := none,
    child_weight_lbs := none, child_value_usd := none,
    child_aluminum_percent := none, child_steel_percent := none,
    child_has_russian_content := none, child_russian_percent := none,
    child_russian_description := none, child_manufacturing_method := none,
    child_is_complete := none }

/-- `GET /export/parts` (`export_parts`, lines 1397-1455) as the list of rows
written to the spreadsheet: one row per parent × child, a single parent-only
row for childless parents, supplier-scoped. -/
def exportRows (s : State) (u : User) : List Row :=
  let parts :=
    if u.role == "supplier" then s.parent_parts.filter (fun p => p.supplier_id == u.id)
    else s.parent_parts
  parts.flatMap (fun p =>
    if p.child_parts.isEmpty then [parentOnlyRow p]
    else p.child_parts.map (childRow p))

/-- The result counters returned by `import_excel`.  In this typed-row model
the per-SKU `try/except` never fires (exceptions there come from malformed
spreadsheet cells, which typed cells exclude), so `errors` stays empty. -/
structure ImportResult where
  created_parents : Nat
  updated_parents : Nat
  created_children : Nat
  updated_children : Nat
  errors : List String
deriving Repr, DecidableEq

/-- `pandas.Series.unique` on the `parent_sku` column: first occurrences, in
order of first appearance. -/
def uniqueFirstAux (seen : List String) : List String → List String
  | [] => []
  | x :: xs => if x ∈ seen then uniqueFirstAux seen xs else x :: uniqueFirstAux (x :: seen) xs

/-- The existing-parent `updates` of `import_excel` (lines 1231-1242): each
present cell overwrites the stored field (the source does not compare
against the stored value). -/
def importParentApply (p : ParentPart) (r : Row) : ParentPart :=
  { p with
    name := r.parent_name.getD p.name,
    description := match r.parent_description with | none => p.description | some v => some v,
    country_of_origin :=
      match r.parent_country_of_origin with | none => p.country_of_origin | some v => some v,
    total_weight_kg := r.parent_total_weight_kg.getD p.total_weight_kg,
    total_value_usd := r.parent_total_value_usd.getD p.total_value_usd }

/-- Whether the existing-parent `updates` dict of `import_excel` is
non-empty for this first row. -/
def importAnyParentUpd (r : Row) : Bool :=
  r.parent_name.isSome || r.parent_description.isSome ||
    r.parent_country_of_origin.isSome || r.parent_total_weight_kg.isSome ||
    r.parent_total_value_usd.isSome

/-- The new parent built by `import_excel` (lines 1255-1263).  The `name`
lookup has no `notna` guard in the source — a missing cell yields the string
`str(nan) = "nan"`. -/
def importCreateParent (newId uid : Nat) (sku : String) (r : Row) : ParentPart :=
  { id := newId, sku := sku,
    name := match r.parent_name with | some v => v | none => "nan",
    description := r.parent_description,
    supplier_id := uid, status := "incomplete",
    total_weight_kg := r.parent_total_weight_kg.getD 0,
    total_value_usd := r.parent_total_value_usd.getD 0,
    country_of_origin := r.parent_country_of_origin, child_parts := [],
    document_ids := [] }

/-- The existing-child merge of `import_excel` (lines 1291-1329): present
cells overwrite, `weight_lbs` follows a present `weight_kg`, and
`is_complete` is recomputed on the merged record. -/
def importUpdateChild (old : ChildPart) (r : Row) : ChildPart :=
  let merged : ChildPart :=
    { old with
      name := r.child_name.getD old.name,
      description := match r.child_description with | none => old.description | some v => some v,
      country_of_origin := r.child_country_of_origin.getD old.country_of_origin,
      weight_kg := r.child_weight_kg.getD old.weight_kg,
      weight_lbs :=
        match r.child_weight_kg with | none => old.weight_lbs | some w => some (w * lbsPerKg),
      value_usd := r.child_value_usd.getD old.value_usd,
      aluminum_content_percent := r.child_aluminum_percent.getD old.aluminum_content_percent,
      steel_content_percent := r.child_steel_percent.getD old.steel_content_percent,
      has_russian_content := r.child_has_russian_content.getD old.has_russian_content,
      russian_content_percent := r.child_russian_percent.getD old.russian_content_percent,
      russian_content_description :=
        match r.child_russian_description with
        | none => old.russian_content_description
        | some v => some v,
      manufacturing_method :=
        match r.child_manufacturing_method with
        | none => old.manufacturing_method
        | some v => some v }
  withRecomputedComplete merged

/-- The new child built by `import_excel` (lines 1337-1359), including the
post-construction `weight_lbs` and `is_complete` assignments. -/
def importCreateChild (newId : Nat) (cid : String) (r : Row) : ChildPart :=
  let child : ChildPart :=
    { id := newId, identifier := cid,
      name := r.child_name.getD cid,
      description := r.child_description,
      country_of_origin := r.child_country_of_origin.getD "",
      weight_kg := r.child_weight_kg.getD 0,
      weight_lbs := none,
      value_usd := r.child_value_usd.getD 0,
      aluminum_content_percent := r.child_aluminum_percent.getD 0,
      steel_content_percent := r.child_steel_percent.getD 0,
      has_russian_content := r.child_has_russian_content.getD false,
      russian_content_percent := r.child_russian_percent.getD 0,
      russian_content_description := r.child_russian_description,
      manufacturing_method := r.child_manufacturing_method,
      document_ids := [], is_complete := false }
  let child1 := { child with weight_lbs := some (child.weight_kg * lbsPerKg) }
  withRecomputedComplete child1

/-- The parent rewrite performed by the existing-child import branch: merge
the row into the first child with the matched identifier. -/
def importMergeInto (cid : String) (r : Row) (p : ParentPart) : ParentPart :=
  { p with child_parts :=
      updateFirst p.child_parts (fun cp => cp.identifier == cid) (fun cp => importUpdateChild cp r) }

/-- One iteration of the child loop of `import_excel` (lines 1274-1372):
rows without a child identifier are skipped; otherwise the first child with
that identifier is merged, or a new child appended. -/
def importChildStep (_u : User) (pid : Nat) (acc : State × ImportResult) (r : Row) :
    State × ImportResult :=
  match r.child_identifier with
  | none => acc
  | some cid =>
    match acc.1.parent_parts.find? (fun p => p.id == pid) with
    | none => acc
    | some pdoc =>
      match pdoc.child_parts.find? (fun cp => cp.identifier == cid) with
      | some _ =>
        let st1 := modifyPart acc.1 pid (importMergeInto cid r)
        (st1, { acc.2 with updated_children := acc.2.updated_children + 1 })
      | none =>
        let child := importCreateChild acc.1.nextId cid r
        let st1 := modifyPart acc.1 pid (fun p =>
          { p with child_parts := p.child_parts ++ [child] })
        ({ st1 with nextId := st1.nextId + 1 },
         { acc.2 with created_children := acc.2.created_children + 1 })

/-- One SKU group of `import_excel` (lines 1216-1377): seed/update the
parent from the group's first row, upsert a child per row with an
identifier, then recompute the parent's status. -/
def importGroup (u : User) (rows : List Row) (acc : State × ImportResult)
    (sku : String) : State × ImportResult :=
  let group := rows.filter (fun r => r.parent_sku == some sku)
  match group.head? with
  | none => acc
  | some first =>
    match acc.1.parent_parts.find? (fun p => p.sku == sku && p.supplier_id == u.id) with
    | some ep =>
      let anyUpd := importAnyParentUpd first
      let st1 := if anyUpd then modifyPart acc.1 ep.id (fun p => importParentApply p first)
        else acc.1
      let res1 := if anyUpd then { acc.2 with updated_parents := acc.2.updated_parents + 1 }
        else acc.2
      let stres := group.foldl (importChildStep u ep.id) (st1, res1)
      (recalcStatus stres.1 ep.id, stres.2)
    | none =>
      let np := importCreateParent acc.1.nextId u.id sku first
      let st1 : State :=
        { acc.1 with parent_parts := acc.1.parent_parts ++ [np], nextId := acc.1.nextId + 1 }
      let res1 := { acc.2 with created_parents := acc.2.created_parents + 1 }
      let stres := group.foldl (importChildStep u np.id) (st1, res1)
      (recalcStatus stres.1 np.id, stres.2)

/-- `POST /import/excel` (`import_excel`, lines 1193-1395), over the typed
row list read from the spreadsheet: group rows by parent SKU in first
appearance order (`NaN` SKUs skipped), process each group, then append one
audit entry summarising the counters. -/
def import_excel (s : State) (u : User) (rows : List Row) : State × ImportResult :=
  let skus := uniqueFirstAux [] (rows.filterMap (fun r => r.parent_sku))
  let stres := skus.foldl (importGroup u rows) (s, ⟨0, 0, 0, 0, []⟩)
  let res := stres.2
  let summary := "Parents: " ++ toString res.created_parents ++ " created, " ++
    toString res.updated_parents ++ " updated. Children: " ++
    toString res.created_children ++ " created, " ++
    toString res.updated_children ++ " updated."
  let st1 := create_audit_log { stres.1 with nextId := stres.1.nextId + 1 } u
    "import" "batch_import" stres.1.nextId
    [⟨"import_results", none, some (FVal.vStr summary)⟩] (actorScope u)
  (st1, res)

/-- Claim C1: for every parent part record, `calculate_part_status` returns
`incomplete` on an empty child list; otherwise `needs_review` when the parent
weight is positive and the child weight sum deviates from it by more than 1%
(this check taking priority over completeness); otherwise `completed` when
every child is complete; otherwise `incomplete`. -/
theorem C1_calculate_part_status_matches_spec (p : ParentPart) :
    calculate_part_status p = statusSpec p := by
  unfold calculate_part_status statusSpec
  by_cases hempty : p.child_parts = []
  · simp [hempty]
  · have hne : p.child_parts.isEmpty = false := by
      simpa [List.isEmpty_iff] using hempty
    by_cases hw : 0 < p.total_weight_kg ∧
        |((p.child_parts.map (fun c => c.weight_kg)).sum) - p.total_weight_kg| / p.total_weight_kg
          > 1 / 100
    · simp [hne, hempty, hw]
    · by_cases hcomp : ∀ c ∈ p.child_parts, c.is_complete = true
      · simp [hne, hempty, hw, hcomp, List.all_eq_true]
      · simp [hne, hempty, hw, hcomp, List.all_eq_true]

/-! Concrete fixtures used by witnesses and counterexamples. -/

/-- A stored child with all five required fields valid and one bound
document. -/
def fxChild : ChildPart :=
  { id := 2, identifier := "C", name := "c", description := none,
    country_of_origin := "USA", weight_kg := 10, weight_lbs := some (10 * lbsPerKg),
    value_usd := 5, aluminum_content_percent := 0, steel_content_percent := 0,
    has_russian_content := false, russian_content_percent := 0,
    russian_content_description := none, manufacturing_method := none,
    document_ids := [7], is_complete := true }

/-- A stored parent owned by supplier 9 whose weight matches its single
child. -/
def fxParent : ParentPart :=
  { id := 1, sku := "S", name := "N", description := none, supplier_id := 9,
    status := "completed", total_weight_kg := 10, total_value_usd := 100,
    country_of_origin := some "USA", child_parts := [fxChild], document_ids := [] }

/-- A second childless parent of the same supplier with a different SKU. -/
def fxParent2 : ParentPart :=
  { id := 3, sku := "T", name := "M", description := none, supplier_id := 9,
    status := "incomplete", total_weight_kg := 0, total_value_usd := 0,
    country_of_origin := none, child_parts := [], document_ids := [] }

/-- The supplier owning the fixture parts. -/
def fxUser : User := ⟨9, "s@x.com", "supplier"⟩

/-- A different supplier. -/
def fxOtherUser : User := ⟨8, "t@x.com", "supplier"⟩

/-- One-part fixture state. -/
def fxState : State := ⟨[fxParent], [], [], 100⟩

/-- Two-part fixture state. -/
def fxState2 : State := ⟨[fxParent, fxParent2], [], [], 100⟩

/-- Creation payload reusing the fixture SKU. -/
def fxDupPayload : ParentPartCreate := ⟨"S", "X", none, none, 0, 0⟩

/-- Parent update payload renaming the part. -/
def fxNamePayload : ParentPartUpdate :=
  { sku := none, name := some "N2", description := none, country_of_origin := none,
    total_weight_kg := none, total_value_usd := none }

/-- Child update payload with every field absent. -/
def fxEmptyChildPayload : ChildPartUpdate :=
  { identifier := none, name := none, description := none, country_of_origin := none,
    weight_kg := none, value_usd := none, aluminum_content_percent := none,
    steel_content_percent := none, has_russian_content := none,
    russian_content_percent := none, russian_content_description := none,
    manufacturing_method := none }

/-- Claim C9: for a supplier-role caller, fetching a part whose id does not
exist and fetching a part owned by a different supplier produce the
identical 404 error, so the two cases are indistinguishable from the
response. -/
theorem C9_get_part_uniform_404 (s₁ s₂ : State) (u : User) (pid₁ pid₂ : Nat)
    (hrole : u.role = "supplier")
    (h₁ : ∀ p ∈ s₁.parent_parts, p.id ≠ pid₁)
    (h₂ : ∀ p ∈ s₂.parent_parts, p.id = pid₂ → p.supplier_id ≠ u.id) :
    get_part s₁ u pid₁ = Except.error ⟨404, "Part not found"⟩ ∧
    get_part s₁ u pid₁ = get_part s₂ u pid₂ := by
  have hf₁ : findPart s₁ u pid₁ = none := by
    unfold findPart
    rw [List.find?_eq_none]
    intro p hp
    simp only [Bool.and_eq_true, beq_iff_eq, not_and]
    intro hid
    exact absurd hid (h₁ p hp)
  have hf₂ : findPart s₂ u pid₂ = none := by
    unfold findPart
    rw [List.find?_eq_none]
    intro p hp
    simp only [Bool.and_eq_true, beq_iff_eq, not_and]
    intro hid
    unfold scopeOk
    simp [hrole, h₂ p hp hid]
  constructor
  · unfold get_part
    rw [hf₁]
  · unfold get_part
    rw [hf₁, hf₂]

/-- Witness for C9: supplier 8 requesting a nonexistent id and requesting
supplier 9's part gets the same 404. -/
theorem C9_get_part_uniform_404_witness :
    get_part fxState fxOtherUser 99 = Except.error ⟨404, "Part not found"⟩ ∧
    get_part fxState fxOtherUser 99 = get_part fxState fxOtherUser 1 :=
  C9_get_part_uniform_404 fxState fxState fxOtherUser 99 1 rfl (by decide) (by decide)

/-- Claim C10: `create_part` returns the 400 duplicate error exactly when a
parent with the caller's id and the requested SKU is already stored, and in
that case the state (parts and audit log alike) is unchanged. -/
theorem C10_create_part_duplicate_sku (s : State) (u : User) (pl : ParentPartCreate) :
    ((create_part s u pl).2 = Except.error ⟨400, "SKU already exists for this supplier"⟩ ↔
      ∃ p ∈ s.parent_parts, p.sku = pl.sku ∧ p.supplier_id = u.id) ∧
    ((∃ p ∈ s.parent_parts, p.sku = pl.sku ∧ p.supplier_id = u.id) →
      (create_part s u pl).1 = s) := by
  unfold create_part
  by_cases h : s.parent_parts.any (fun p => p.sku == pl.sku && p.supplier_id == u.id)
  · simp only [h, if_true]
    constructor
    · simp only [true_iff]
      rcases List.any_eq_true.mp h with ⟨p, hp, hpred⟩
      simp only [Bool.and_eq_true, beq_iff_eq] at hpred
      exact ⟨p, hp, hpred.1, hpred.2⟩
    · intro _
      trivial
  · simp only [h, if_false]
    constructor
    · constructor
      · intro hcontra
        exact absurd hcontra (by simp)
      · intro ⟨p, hp, h1, h2⟩
        exact absurd (List.any_eq_true.mpr ⟨p, hp, by simp [h1, h2]⟩) h
    · intro ⟨p, hp, h1, h2⟩
      exact absurd (List.any_eq_true.mpr ⟨p, hp, by simp [h1, h2]⟩) h

/-- Witness for C10: re-creating the fixture SKU for the same supplier is
rejected with the 400 duplicate error and leaves the state untouched. -/
theorem C10_create_part_duplicate_sku_witness :
    (create_part fxState fxUser fxDupPayload).2 =
      Except.error ⟨400, "SKU already exists for this supplier"⟩ ∧
    (create_part fxState fxUser fxDupPayload).1 = fxState :=
  ⟨(C10_create_part_duplicate_sku fxState fxUser fxDupPayload).1.mpr
      ⟨fxParent, List.mem_cons_self _ _, rfl, rfl⟩,
   (C10_create_part_duplicate_sku fxState fxUser fxDupPayload).2
      ⟨fxParent, List.mem_cons_self _ _, rfl, rfl⟩⟩

/-- Claim C4: a parent or child update that computes a non-empty change set
appends exactly one audit entry whose `field_changes` is the whole computed
diff (`parentChanges`/`childChanges`: the payload fields that are present
and differ from the stored value, one list per call — never one entry per
field), while an update whose change set is empty appends nothing and
leaves the state unchanged. -/
theorem C4_audit_one_entry_per_update (s : State) (u : User) (pid cid : Nat)
    (pl : ParentPartUpdate) (cu : ChildPartUpdate) :
    (∀ part, findPart s u pid = some part →
      (parentChanges part pl = [] → (update_part s u pid pl).1 = s) ∧
      (parentChanges part pl ≠ [] →
        (update_part s u pid pl).1.audit_logs =
          s.audit_logs ++ [⟨s.nextId, u.id, u.email, "update", "parent_part", pid,
            parentChanges part pl, actorScope u⟩])) ∧
    (∀ part old, findPart s u pid = some part →
      part.child_parts.find? (fun cp => cp.id == cid) = some old →
      (childChanges old cu = [] → (update_child_part s u pid cid cu).1 = s) ∧
      (childChanges old cu ≠ [] →
        (update_child_part s u pid cid cu).1.audit_logs =
          s.audit_logs ++ [⟨s.nextId, u.id, u.email, "update", "child_part", cid,
            childChanges old cu, actorScope u⟩])) := by
  constructor
  · intro part hfind
    constructor
    · intro hempty
      simp only [update_part, hfind]
      simp [hempty]
    · intro hne
      have hfalse : (parentChanges part pl).isEmpty = false := by
        simpa [List.isEmpty_iff] using hne
      simp only [update_part, hfind, hfalse]
      simp [create_audit_log, recalcStatus]
  · intro part old hfind hchild
    constructor
    · intro hempty
      simp only [update_child_part, hfind, hchild]
      simp [hempty]
    · intro hne
      have hfalse : (childChanges old cu).isEmpty = false := by
        simpa [List.isEmpty_iff] using hne
      simp only [update_child_part, hfind, hchild, hfalse]
      simp [create_audit_log, recalcStatus]

/-- Witness for C4: renaming the fixture parent appends one entry carrying
the single name change; the all-absent child payload changes nothing. -/
theorem C4_audit_one_entry_per_update_witness :
    (update_part fxState fxUser 1 fxNamePayload).1.audit_logs =
      fxState.audit_logs ++ [⟨fxState.nextId, fxUser.id, fxUser.email, "update",
        "parent_part", 1, parentChanges fxParent fxNamePayload, actorScope fxUser⟩] ∧
    (update_child_part fxState fxUser 1 2 fxEmptyChildPayload).1 = fxState :=
  ⟨((C4_audit_one_entry_per_update fxState fxUser 1 2 fxNamePayload
      fxEmptyChildPayload).1 fxParent rfl).2 (by decide),
   ((C4_audit_one_entry_per_update fxState fxUser 1 2 fxNamePayload
      fxEmptyChildPayload).2 fxParent fxChild rfl rfl).1 (by decide)⟩

/-! General lemmas about the list-collection primitives. -/

theorem updateFirst_eq_self {l : List α} {p : α → Bool} {f : α → α}
    (h : ∀ y ∈ l, p y = false) : updateFirst l p f = l := by
  induction l with
  | nil => rfl
  | cons x xs ih =>
    unfold updateFirst
    rw [h x (List.mem_cons_self x xs)]
    simp only [Bool.false_eq_true, if_false, List.cons.injEq, true_and]
    exact ih (fun y hy => h y (List.mem_cons_of_mem x hy))

theorem updateFirst_append {l1 : List α} {x : α} {l2 : List α} {p : α → Bool}
    {f : α → α} (h1 : ∀ y ∈ l1, p y = false) (hx : p x = true) :
    updateFirst (l1 ++ x :: l2) p f = l1 ++ f x :: l2 := by
  induction l1 with
  | nil => simp [updateFirst, hx]
  | cons y ys ih =>
    have hy : p y = false := h1 y (List.mem_cons_self y ys)
    simp only [List.cons_append, updateFirst, hy, Bool.false_eq_true, if_false,
      List.cons.injEq, true_and]
    exact ih (fun z hz => h1 z (List.mem_cons_of_mem y hz))

theorem mem_updateFirst {l : List α} {p : α → Bool} {f : α → α} {y : α}
    (h : y ∈ updateFirst l p f) : y ∈ l ∨ ∃ x ∈ l, p x = true ∧ y = f x := by
  induction l with
  | nil => simp [updateFirst] at h
  | cons x xs ih =>
    unfold updateFirst at h
    by_cases hx : p x
    · rw [hx] at h
      simp only [if_true] at h
      rcases List.mem_cons.mp h with h1 | h2
      · exact Or.inr ⟨x, List.mem_cons_self x xs, hx, h1⟩
      · exact Or.inl (List.mem_cons_of_mem x h2)
    · rw [Bool.not_eq_true] at hx
      rw [hx] at h
      simp only [Bool.false_eq_true, if_false] at h
      rcases List.mem_cons.mp h with h1 | h2
      · exact Or.inl (h1 ▸ List.mem_cons_self x xs)
      · rcases ih h2 with h3 | ⟨z, hz, hpz, hyz⟩
        · exact Or.inl (List.mem_cons_of_mem x h3)
        · exact Or.inr ⟨z, List.mem_cons_of_mem x hz, hpz, hyz⟩

theorem find?_decomp {l : List α} {p : α → Bool} {a : α} (h : l.find? p = some a) :
    ∃ l1 l2, l = l1 ++ a :: l2 ∧ ∀ y ∈ l1, p y = false := by
  induction l with
  | nil => simp at h
  | cons x xs ih =>
    by_cases hx : p x
    · rw [List.find?_cons_of_pos _ hx] at h
      refine ⟨[], xs, ?_, by simp⟩
      simpa using (Option.some.injEq .. ▸ h :)
    · rw [Bool.not_eq_true] at hx
      rw [List.find?_cons_of_neg _ (by simp [hx])] at h
      rcases ih h with ⟨l1, l2, heq, hall⟩
      refine ⟨x :: l1, l2, by rw [heq]; rfl, ?_⟩
      intro y hy
      rcases List.mem_cons.mp hy with h1 | h2
      · rw [h1]; exact hx
      · exact hall y h2

theorem find?_prefix_false {l1 l2 : List α} {p : α → Bool}
    (h : ∀ y ∈ l1, p y = false) : (l1 ++ l2).find? p = l2.find? p := by
  induction l1 with
  | nil => rfl
  | cons x xs ih =>
    have hx : p x = false := h x (List.mem_cons_self x xs)
    rw [List.cons_append, List.find?_cons_of_neg _ (by simp [hx])]
    exact ih (fun y hy => h y (List.mem_cons_of_mem x hy))

theorem foldl_modifyPart_documents (g : Nat → ParentPart → ParentPart) :
    ∀ (l : List Nat) (st : State),
    (l.foldl (fun st2 pid => modifyPart st2 pid (g pid)) st).documents =
      st.documents := by
  intro l
  induction l with
  | nil => intro st; rfl
  | cons x xs ih => intro st; rw [List.foldl_cons, ih]; rfl

theorem foldl_modifyPart_nextId (g : Nat → ParentPart → ParentPart) :
    ∀ (l : List Nat) (st : State),
    (l.foldl (fun st2 pid => modifyPart st2 pid (g pid)) st).nextId = st.nextId := by
  intro l
  induction l with
  | nil => intro st; rfl
  | cons x xs ih => intro st; rw [List.foldl_cons, ih]; rfl

/-- The completeness boolean on a stored child coincides with the five-part
specification predicate. -/
def childCompleteSpec (c : ChildPart) : Prop :=
  c.identifier ≠ "" ∧ c.name ≠ "" ∧ c.country_of_origin ≠ "" ∧
    0 < c.weight_kg ∧ 0 < c.value_usd

theorem childStoredComplete_iff (c : ChildPart) :
    childStoredComplete c = true ↔ childCompleteSpec c := by
  unfold childStoredComplete childCompleteSpec
  simp [Bool.and_eq_true, bne_iff_ne, and_assoc]

theorem withRecomputedComplete_iff (c : ChildPart) :
    (withRecomputedComplete c).is_complete = true ↔
      childCompleteSpec (withRecomputedComplete c) := by
  have h1 : (withRecomputedComplete c).is_complete =
      childStoredComplete (withRecomputedComplete c) := by
    cases c
    rfl
  rw [h1]
  exact childStoredComplete_iff _

/-- Child creation payload with all five required fields valid. -/
def fxChildCreate : ChildPartCreate :=
  ⟨"D", "d", none, "USA", 1, 1, 0, 0, false, 0, none, none⟩

/-- Parent update payload rewriting only the SKU to the fixture SKU. -/
def fxSkuPayload : ParentPartUpdate :=
  { sku := some "S", name := none, description := none, country_of_origin := none,
    total_weight_kg := none, total_value_usd := none }

/-- Counterexample to claim C2: duplicating the fixture child — a mutating
operation on the child list — stores a child all five of whose required
fields are valid (`childStoredComplete` is true) but whose `is_complete` is
false, so the biconditional invariant does not hold after `duplicate`. -/
theorem C2_counterexample_duplicate_breaks_invariant :
    ∃ c, (duplicate_child_part fxState fxUser 1 2).2 = Except.ok c ∧
      (∃ p, findPart (duplicate_child_part fxState fxUser 1 2).1 fxUser 1 = some p ∧
        p.child_parts.find? (fun cp => cp.id == c.id) = some c) ∧
      childStoredComplete c = true ∧ c.is_complete = false := by
  refine ⟨_, rfl, ⟨_, rfl, rfl⟩, by decide, rfl⟩

/-- Claim C2 as amended: the completeness biconditional holds for the child
written by `add_child_part`, by `update_child_part` (the merged record when
any field changed), and by both import upserts — but `duplicate_child_part`
always forces `is_complete = false` on the new child, even when all five
required fields are valid. -/
theorem C2_amended_child_completeness :
    (∀ (s : State) (u : User) (pid : Nat) (cd : ChildPartCreate) (c : ChildPart),
      (add_child_part s u pid cd).2 = Except.ok c →
      (c.is_complete = true ↔ childCompleteSpec c)) ∧
    (∀ (old : ChildPart) (cu : ChildPartUpdate),
      (childMergeResult old cu).is_complete = true ↔
        childCompleteSpec (childMergeResult old cu)) ∧
    (∀ (old : ChildPart) (r : Row),
      (importUpdateChild old r).is_complete = true ↔
        childCompleteSpec (importUpdateChild old r)) ∧
    (∀ (i : Nat) (cid : String) (r : Row),
      (importCreateChild i cid r).is_complete = true ↔
        childCompleteSpec (importCreateChild i cid r)) ∧
    (∀ (s : State) (u : User) (pid cid : Nat) (c : ChildPart),
      (duplicate_child_part s u pid cid).2 = Except.ok c → c.is_complete = false) := by
  refine ⟨?_, ?_, ?_, ?_, ?_⟩
  · intro s u pid cd c hok
    rcases hf : findPart s u pid with _ | part
    · simp [add_child_part, hf] at hok
    · simp only [add_child_part, hf] at hok
      rw [Except.ok.injEq] at hok
      have h1 : c.is_complete = childStoredComplete c := by
        rw [← hok]
        rfl
      rw [h1]
      exact childStoredComplete_iff c
  · intro old cu
    exact withRecomputedComplete_iff _
  · intro old r
    exact withRecomputedComplete_iff _
  · intro i cid r
    exact withRecomputedComplete_iff _
  · intro s u pid cid c hok
    rcases hf : findPart s u pid with _ | part
    · simp [duplicate_child_part, hf] at hok
    · rcases hc : part.child_parts.find? (fun cp => cp.id == cid) with _ | src
      · simp [duplicate_child_part, hf, hc] at hok
      · simp only [duplicate_child_part, hf, hc] at hok
        rw [Except.ok.injEq] at hok
        rw [← hok]

/-- Witness for the amended C2: adding a valid child to the fixture parent
yields a stored child satisfying the biconditional. -/
theorem C2_amended_child_completeness_witness :
    ∃ c, (add_child_part fxState fxUser 1 fxChildCreate).2 = Except.ok c ∧
      (c.is_complete = true ↔ childCompleteSpec c) :=
  ⟨_, rfl, C2_amended_child_completeness.1 fxState fxUser 1 fxChildCreate _ rfl⟩

/-- Counterexample to claim C3: the fixture child carries a bound document
(`document_ids = [7]`), but its duplicate is stored with an empty
`document_ids` list, so not every field other than id/identifier/name/
`is_complete` is preserved. -/
theorem C3_counterexample_document_ids_reset :
    ∃ c, (duplicate_child_part fxState fxUser 1 2).2 = Except.ok c ∧
      fxChild.document_ids = [7] ∧ c.document_ids ≠ fxChild.document_ids := by
  refine ⟨_, rfl, rfl, by decide⟩

/-- Claim C3 as amended: a successful duplicate appends (to the stored
parent's child list) a new child whose id is fresh — hence distinct from the
source id — with the `_copy` / ` (Copy)` suffixes, `is_complete` forced to
false, every scalar field copied from the source, but `document_ids` reset
to the empty list and `weight_lbs` recomputed from the source's kilograms
rather than copied. -/
theorem C3_amended_duplicate_fields (s : State) (u : User) (pid cid : Nat)
    (c : ChildPart) (part : ParentPart) (srcChild : ChildPart)
    (hfind : findPart s u pid = some part)
    (hchild : part.child_parts.find? (fun cp => cp.id == cid) = some srcChild)
    (hok : (duplicate_child_part s u pid cid).2 = Except.ok c)
    (hnodup : (s.parent_parts.map (fun p => p.id)).Nodup)
    (hfresh : ∀ p ∈ s.parent_parts, ∀ cp ∈ p.child_parts, cp.id < s.nextId) :
    c.id ≠ srcChild.id ∧
    c.identifier = srcChild.identifier ++ "_copy" ∧
    c.name = srcChild.name ++ " (Copy)" ∧
    c.is_complete = false ∧
    c.description = srcChild.description ∧
    c.country_of_origin = srcChild.country_of_origin ∧
    c.weight_kg = srcChild.weight_kg ∧
    c.weight_lbs = some (srcChild.weight_kg * lbsPerKg) ∧
    c.value_usd = srcChild.value_usd ∧
    c.aluminum_content_percent = srcChild.aluminum_content_percent ∧
    c.steel_content_percent = srcChild.steel_content_percent ∧
    c.has_russian_content = srcChild.has_russian_content ∧
    c.russian_content_percent = srcChild.russian_content_percent ∧
    c.russian_content_description = srcChild.russian_content_description ∧
    c.manufacturing_method = srcChild.manufacturing_method ∧
    c.document_ids = [] ∧
    (∃ p, findPart (duplicate_child_part s u pid cid).1 u pid = some p ∧
      p.child_parts = part.child_parts ++ [c]) := by
  have hfind' : s.parent_parts.find?
      (fun p => p.id == pid && scopeOk u p.supplier_id) = some part := hfind
  have hmempart : part ∈ s.parent_parts := List.mem_of_find?_eq_some hfind'
  have hmemsrc : srcChild ∈ part.child_parts := List.mem_of_find?_eq_some hchild
  have hsrclt : srcChild.id < s.nextId := hfresh part hmempart srcChild hmemsrc
  have hpred1 : (part.id == pid && scopeOk u part.supplier_id) = true := by
    have := List.find?_some hfind'
    simpa using this
  have hpartid : part.id = pid := by
    have := (Bool.and_eq_true ..).mp hpred1
    exact beq_iff_eq.mp this.1
  have hscope : scopeOk u part.supplier_id = true := ((Bool.and_eq_true ..).mp hpred1).2
  have hc : c =
      { id := s.nextId, identifier := srcChild.identifier ++ "_copy",
        name := srcChild.name ++ " (Copy)", description := srcChild.description,
        country_of_origin := srcChild.country_of_origin, weight_kg := srcChild.weight_kg,
        weight_lbs := some (srcChild.weight_kg * lbsPerKg), value_usd := srcChild.value_usd,
        aluminum_content_percent := srcChild.aluminum_content_percent,
        steel_content_percent := srcChild.steel_content_percent,
        has_russian_content := srcChild.has_russian_content,
        russian_content_percent := srcChild.russian_content_percent,
        russian_content_description := srcChild.russian_content_description,
        manufacturing_method := srcChild.manufacturing_method,
        document_ids := [], is_complete := false } := by
    simp only [duplicate_child_part, hfind, hchild] at hok
    rw [Except.ok.injEq] at hok
    exact hok.symm
  rcases find?_decomp hfind' with ⟨l1, l2, heq, hl1⟩
  have hl1id : ∀ y ∈ l1, (y.id == pid) = false := by
    intro y hy
    by_contra hcon
    rw [Bool.not_eq_false, beq_iff_eq] at hcon
    have hnodup' : ((l1 ++ part :: l2).map (fun p => p.id)).Nodup := heq ▸ hnodup
    rw [List.map_append, List.nodup_append] at hnodup'
    exact hnodup'.2.2 (List.mem_map_of_mem _ hy) (by simp [hcon, hpartid])
  refine ⟨?_, by rw [hc], by rw [hc], by rw [hc], by rw [hc], by rw [hc], by rw [hc],
    by rw [hc], by rw [hc], by rw [hc], by rw [hc], by rw [hc], by rw [hc], by rw [hc],
    by rw [hc], by rw [hc], ?_⟩
  · rw [hc]
    intro hcon
    have : srcChild.id < srcChild.id := by
      conv_rhs => rw [← hcon]
      exact hsrclt
    exact Nat.lt_irrefl _ this
  · simp only [duplicate_child_part, hfind, hchild]
    rw [← hc]
    refine ⟨{ part with
        child_parts := part.child_parts ++ [c],
        status :=
          calculate_part_status { part with child_parts := part.child_parts ++ [c] } },
      ?_, rfl⟩
    unfold findPart recalcStatus create_audit_log
    simp only
    rw [heq, updateFirst_append hl1id (by simp [hpartid]),
      updateFirst_append hl1id (by simp [hpartid]),
      find?_prefix_false (by intro y hy; simp [hl1id y hy]),
      List.find?_cons_of_pos _ (by simp [hpartid, hscope])]

/-- Witness for the amended C3: duplicating the fixture child yields exactly
the amended field relationships. -/
theorem C3_amended_duplicate_fields_witness :
    ∃ c, (duplicate_child_part fxState fxUser 1 2).2 = Except.ok c ∧
      (c.id ≠ fxChild.id ∧
       c.identifier = fxChild.identifier ++ "_copy" ∧
       c.name = fxChild.name ++ " (Copy)" ∧
       c.is_complete = false ∧
       c.description = fxChild.description ∧
       c.country_of_origin = fxChild.country_of_origin ∧
       c.weight_kg = fxChild.weight_kg ∧
       c.weight_lbs = some (fxChild.weight_kg * lbsPerKg) ∧
       c.value_usd = fxChild.value_usd ∧
       c.aluminum_content_percent = fxChild.aluminum_content_percent ∧
       c.steel_content_percent = fxChild.steel_content_percent ∧
       c.has_russian_content = fxChild.has_russian_content ∧
       c.russian_content_percent = fxChild.russian_content_percent ∧
       c.russian_content_description = fxChild.russian_content_description ∧
       c.manufacturing_method = fxChild.manufacturing_method ∧
       c.document_ids = [] ∧
       (∃ p, findPart (duplicate_child_part fxState fxUser 1 2).1 fxUser 1 = some p ∧
         p.child_parts = fxParent.child_parts ++ [c])) :=
  ⟨_, rfl, C3_amended_duplicate_fields fxState fxUser 1 2 _ fxParent fxChild rfl rfl rfl
    (by decide) (by decide)⟩

/-- Claim C7 is violated by the code (`update_part` performs no duplicate-SKU
check): in a state where supplier 9 owns parts with SKUs `"S"` and `"T"`,
updating the second part's SKU to `"S"` succeeds and leaves two parts with
the same `(sku, supplier)` pair, breaking the uniqueness the data model
documents (`sku: str  # Unique part number`) and `create_part` enforces. -/
theorem C7_update_part_violates_sku_uniqueness :
    (fxState2.parent_parts.filter (fun p => p.sku == "S" && p.supplier_id == 9)).length
      = 1 ∧
    (update_part fxState2 fxUser 3 fxSkuPayload).2 = Except.ok () ∧
    ((update_part fxState2 fxUser 3 fxSkuPayload).1.parent_parts.filter
      (fun p => p.sku == "S" && p.supplier_id == 9)).length = 2 := by
  refine ⟨by decide, rfl, by decide⟩

/-- The document collection after an upload: the old collection plus one new
document whose version is one more than the version of the *first* stored
match (or 1 when there is none); the response's `duplicate_warning` is the
existence of a match. -/
theorem upload_document_effect (s : State) (u : User) (fn : String)
    (pids cids : List Nat) :
    (upload_document s u fn pids cids).1.documents =
      s.documents ++
        [{ id := s.nextId, supplier_id := u.id, original_name := fn,
           parent_part_ids := pids, child_part_ids := cids,
           version :=
             match s.documents.find?
                 (fun d => d.supplier_id == u.id && d.original_name == fn) with
             | none => 1
             | some e => e.version + 1 }] ∧
    (upload_document s u fn pids cids).2.duplicate_warning =
      (s.documents.find?
        (fun d => d.supplier_id == u.id && d.original_name == fn)).isSome := by
  constructor
  · show (create_audit_log _ _ _ _ _ _ _).documents = _
    unfold create_audit_log
    simp only
    rw [foldl_modifyPart_documents]
  · rfl

/-- Counterexample to claim C8: after two uploads of `f.pdf` the stored
versions are `[1, 2]` (all by supplier 9 under the same name), yet a third
upload of the same name is assigned version `2` again — not `2 + 1` — so the
version counter is not monotonically incrementing across repeated uploads. -/
theorem C8_counterexample_version_not_monotonic :
    ((upload_document fxState fxUser "f.pdf" [] []).1.documents.map
        (fun d => (d.supplier_id, d.original_name, d.version)) =
      [(9, "f.pdf", 1)]) ∧
    ((upload_document (upload_document fxState fxUser "f.pdf" [] []).1
        fxUser "f.pdf" [] []).1.documents.map
        (fun d => (d.supplier_id, d.original_name, d.version)) =
      [(9, "f.pdf", 1), (9, "f.pdf", 2)]) ∧
    ((upload_document (upload_document (upload_document fxState fxUser "f.pdf" [] []).1
        fxUser "f.pdf" [] []).1 fxUser "f.pdf" [] []).1.documents.map
        (fun d => (d.supplier_id, d.original_name, d.version)) =
      [(9, "f.pdf", 1), (9, "f.pdf", 2), (9, "f.pdf", 2)]) := by
  refine ⟨by decide, by decide, by decide⟩

/-- Claim C8 as amended: an upload is never rejected for a duplicate name;
when no document with the caller's `(supplier_id, original_name)` exists the
new document gets version 1 and `duplicate_warning = false`; on a repeat
upload the new version is one more than the version of the *first* stored
match — so the second upload gets version 2 with `duplicate_warning = true`,
but a third upload gets version 2 again (the counter is not monotonic beyond
the second upload). -/
theorem C8_amended_upload_versioning (s : State) (u : User) (fn : String)
    (p1 c1 p2 c2 p3 c3 : List Nat)
    (h : s.documents.find? (fun d => d.supplier_id == u.id && d.original_name == fn)
      = none) :
    (upload_document s u fn p1 c1).2.duplicate_warning = false ∧
    (upload_document (upload_document s u fn p1 c1).1 u fn p2 c2).2.duplicate_warning
      = true ∧
    (upload_document (upload_document (upload_document s u fn p1 c1).1 u fn p2 c2).1
      u fn p3 c3).2.duplicate_warning = true ∧
    (upload_document (upload_document (upload_document s u fn p1 c1).1 u fn p2 c2).1
        u fn p3 c3).1.documents.map (fun d => d.version) =
      s.documents.map (fun d => d.version) ++ [1, 2, 2] := by
  have hpred : ∀ y ∈ s.documents,
      (fun d => d.supplier_id == u.id && d.original_name == fn) y = false := by
    intro y hy
    have := List.find?_eq_none.mp h y hy
    simpa using this
  have e1 := upload_document_effect s u fn p1 c1
  have hw1 : (upload_document s u fn p1 c1).2.duplicate_warning = false := by
    rw [e1.2, h]
    rfl
  have hd1 : (upload_document s u fn p1 c1).1.documents =
      s.documents ++
        [{ id := s.nextId, supplier_id := u.id, original_name := fn,
           parent_part_ids := p1, child_part_ids := c1, version := 1 }] := by
    rw [e1.1, h]
  have hf1 : (upload_document s u fn p1 c1).1.documents.find?
      (fun d => d.supplier_id == u.id && d.original_name == fn) =
      some
        { id := s.nextId, supplier_id := u.id, original_name := fn,
          parent_part_ids := p1, child_part_ids := c1, version := 1 } := by
    rw [hd1, find?_prefix_false hpred, List.find?_cons_of_pos _ (by simp)]
  have e2 := upload_document_effect (upload_document s u fn p1 c1).1 u fn p2 c2
  have hw2 : (upload_document (upload_document s u fn p1 c1).1 u fn p2 c2).2.duplicate_warning = true := by
    rw [e2.2, hf1]
    rfl
  have hd2 : (upload_document (upload_document s u fn p1 c1).1 u fn p2 c2).1.documents =
      s.documents ++
        [{ id := s.nextId, supplier_id := u.id, original_name := fn,
           parent_part_ids := p1, child_part_ids := c1, version := 1 },
         { id := (upload_document s u fn p1 c1).1.nextId, supplier_id := u.id,
           original_name := fn, parent_part_ids := p2, child_part_ids := c2,
           version := 2 }] := by
    rw [e2.1, hf1, hd1, List.append_assoc]
    rfl
  have hf2 : (upload_document (upload_document s u fn p1 c1).1 u fn p2 c2).1.documents.find?
      (fun d => d.supplier_id == u.id && d.original_name == fn) =
      some
        { id := s.nextId, supplier_id := u.id, original_name := fn,
          parent_part_ids := p1, child_part_ids := c1, version := 1 } := by
    rw [hd2, find?_prefix_false hpred, List.find?_cons_of_pos _ (by simp)]
  have e3 := upload_document_effect
    (upload_document (upload_document s u fn p1 c1).1 u fn p2 c2).1 u fn p3 c3
  have hw3 : (upload_document (upload_document (upload_document s u fn p1 c1).1
      u fn p2 c2).1 u fn p3 c3).2.duplicate_warning = true := by
    rw [e3.2, hf2]
    rfl
  refine ⟨hw1, hw2, hw3, ?_⟩
  rw [e3.1, hf2, hd2]
  simp

/-- Witness for the amended C8: three uploads of `f.pdf` into the fixture
state (which has no documents) produce versions 1, 2, 2 and warnings
false, true, true. -/
theorem C8_amended_upload_versioning_witness :
    (upload_document fxState fxUser "f.pdf" [] []).2.duplicate_warning = false ∧
    (upload_document (upload_document fxState fxUser "f.pdf" [] []).1
      fxUser "f.pdf" [] []).2.duplicate_warning = true ∧
    (upload_document (upload_document (upload_document fxState fxUser "f.pdf" [] []).1
      fxUser "f.pdf" [] []).1 fxUser "f.pdf" [] []).2.duplicate_warning = true ∧
    (upload_document (upload_document (upload_document fxState fxUser "f.pdf" [] []).1
        fxUser "f.pdf" [] []).1 fxUser "f.pdf" [] []).1.documents.map
      (fun d => d.version) =
      fxState.documents.map (fun d => d.version) ++ [1, 2, 2] :=
  C8_amended_upload_versioning fxState fxUser "f.pdf" [] [] [] [] [] [] rfl

/-! Status-invariant machinery for claim C6. -/

/-- `calculate_part_status` only reads the children's completeness flags and
weights and the parent's total weight. -/
theorem calc_congr {p q : ParentPart}
    (hc : p.child_parts.map (fun c => (c.is_complete, c.weight_kg)) =
      q.child_parts.map (fun c => (c.is_complete, c.weight_kg)))
    (hw : p.total_weight_kg = q.total_weight_kg) :
    calculate_part_status p = calculate_part_status q := by
  simp only [calculate_part_status]
  have hempty : p.child_parts.isEmpty = q.child_parts.isEmpty := by
    cases hp : p.child_parts <;> cases hq2 : q.child_parts <;> rw [hp, hq2] at hc <;>
      simp_all
  have hall : p.child_parts.all (fun cp => cp.is_complete) =
      q.child_parts.all (fun cp => cp.is_complete) := by
    have h1 : ∀ l : List ChildPart,
        l.all (fun cp => cp.is_complete) =
        (l.map (fun c => (c.is_complete, c.weight_kg))).all (fun t => t.1) := by
      intro l
      induction l with
      | nil => rfl
      | cons c cs ih => simp [List.all_cons, ih]
    rw [h1, h1, hc]
  have hsum : (p.child_parts.map (fun cp => cp.weight_kg)).sum =
      (q.child_parts.map (fun cp => cp.weight_kg)).sum := by
    have h1 : ∀ l : List ChildPart,
        l.map (fun cp => cp.weight_kg) =
        (l.map (fun c => (c.is_complete, c.weight_kg))).map (fun t => t.2) := by
      intro l
      induction l with
      | nil => rfl
      | cons c cs ih => simp [ih]
    rw [h1, h1, hc]
  rw [hempty, hall, hsum, hw]

/-- The collection-level status invariant: every stored parent's `status`
field is its recomputed derived status. -/
def statusInvL (l : List ParentPart) : Prop :=
  ∀ p ∈ l, p.status = calculate_part_status p

theorem map_updateFirst {l : List α} {q : α → Bool} {f : α → α} (g : α → β)
    (hf : ∀ x, g (f x) = g x) : (updateFirst l q f).map g = l.map g := by
  induction l with
  | nil => rfl
  | cons x xs ih =>
    unfold updateFirst
    by_cases hx : q x
    · rw [hx]
      simp only [if_true, List.map_cons, hf]
    · rw [Bool.not_eq_true] at hx
      rw [hx]
      simp only [Bool.false_eq_true, if_false, List.map_cons, ih]

theorem updateFirst_updateFirst {l : List α} {q : α → Bool} {f g : α → α}
    (hq : ∀ x, q (f x) = q x) :
    updateFirst (updateFirst l q f) q g = updateFirst l q (fun x => g (f x)) := by
  induction l with
  | nil => rfl
  | cons x xs ih =>
    by_cases hx : q x
    · have h2 : q (f x) = true := by rw [hq]; exact hx
      simp [updateFirst, hx, h2]
    · have hx2 : q x = false := by rwa [Bool.not_eq_true] at hx
      simp [updateFirst, hx2, ih]

theorem statusInvL_updateFirst_recalc {l : List ParentPart} {q : ParentPart → Bool}
    {f : ParentPart → ParentPart} (h : statusInvL l) (hid : ∀ x, q (f x) = q x) :
    statusInvL (updateFirst (updateFirst l q f) q
      (fun p => { p with status := calculate_part_status p })) := by
  rw [updateFirst_updateFirst hid]
  intro p hp
  rcases mem_updateFirst hp with h1 | ⟨x, _, _, hpx⟩
  · exact h p h1
  · rw [hpx]
    rfl

theorem statusInvL_updateFirst_neutral {l : List ParentPart} {q : ParentPart → Bool}
    {f : ParentPart → ParentPart} (h : statusInvL l)
    (hst : ∀ x, (f x).status = x.status)
    (hcalc : ∀ x, calculate_part_status (f x) = calculate_part_status x) :
    statusInvL (updateFirst l q f) := by
  intro p hp
  rcases mem_updateFirst hp with h1 | ⟨x, hx, _, hpx⟩
  · exact h p h1
  · rw [hpx, hst, hcalc]
    exact h x hx

theorem statusInvL_map_neutral {l : List ParentPart} {f : ParentPart → ParentPart}
    (h : statusInvL l) (hst : ∀ x, (f x).status = x.status)
    (hcalc : ∀ x, calculate_part_status (f x) = calculate_part_status x) :
    statusInvL (l.map f) := by
  intro p hp
  rcases List.mem_map.mp hp with ⟨x, hx, hpx⟩
  rw [← hpx, hst, hcalc]
  exact h x hx

theorem statusInvL_append {l : List ParentPart} {x : ParentPart}
    (h : statusInvL l) (hx : x.status = calculate_part_status x) :
    statusInvL (l ++ [x]) := by
  intro p hp
  rcases List.mem_append.mp hp with h1 | h2
  · exact h p h1
  · rw [List.mem_singleton.mp h2]
    exact hx

/-- The reachable-state invariant: stored statuses agree with the derived
status, all stored ids are below the fresh-id counter, and parent ids are
pairwise distinct. -/
structure Inv (s : State) : Prop where
  status : statusInvL s.parent_parts
  idsLt : ∀ p ∈ s.parent_parts, p.id < s.nextId
  childIdsLt : ∀ p ∈ s.parent_parts, ∀ c ∈ p.child_parts, c.id < s.nextId
  pidNodup : (s.parent_parts.map (fun p => p.id)).Nodup

theorem idsLt_updateFirst {l : List ParentPart} {q : ParentPart → Bool}
    {g : ParentPart → ParentPart} {n : Nat} (h : ∀ p ∈ l, p.id < n)
    (hid : ∀ x, (g x).id = x.id) : ∀ p ∈ updateFirst l q g, p.id < n := by
  intro p hp
  rcases mem_updateFirst hp with h1 | ⟨x, hx, _, hpx⟩
  · exact h p h1
  · rw [hpx, hid]
    exact h x hx

theorem childLt_updateFirst {l : List ParentPart} {q : ParentPart → Bool}
    {g : ParentPart → ParentPart} {n : Nat}
    (h : ∀ p ∈ l, ∀ c ∈ p.child_parts, c.id < n)
    (hg : ∀ x ∈ l, ∀ c ∈ (g x).child_parts, c.id < n) :
    ∀ p ∈ updateFirst l q g, ∀ c ∈ p.child_parts, c.id < n := by
  intro p hp
  rcases mem_updateFirst hp with h1 | ⟨x, hx, _, hpx⟩
  · exact h p h1
  · rw [hpx]
    exact hg x hx

theorem idsLt_double_updateFirst {l : List ParentPart} {q : ParentPart → Bool}
    {f : ParentPart → ParentPart} {n : Nat} (h : ∀ p ∈ l, p.id < n)
    (hid : ∀ x, (f x).id = x.id) :
    ∀ p ∈ updateFirst (updateFirst l q f) q
      (fun p => { p with status := calculate_part_status p }), p.id < n :=
  idsLt_updateFirst (idsLt_updateFirst h hid) (fun _ => rfl)

theorem childLt_double_updateFirst {l : List ParentPart} {q : ParentPart → Bool}
    {f : ParentPart → ParentPart} {n : Nat}
    (h : ∀ p ∈ l, ∀ c ∈ p.child_parts, c.id < n)
    (hf : ∀ x ∈ l, ∀ c ∈ (f x).child_parts, c.id < n) :
    ∀ p ∈ updateFirst (updateFirst l q f) q
      (fun p => { p with status := calculate_part_status p }),
      ∀ c ∈ p.child_parts, c.id < n := by
  have h1 : ∀ p ∈ updateFirst l q f, ∀ c ∈ p.child_parts, c.id < n :=
    childLt_updateFirst h hf
  exact childLt_updateFirst h1 (fun x hx c hc => h1 x hx c hc)

theorem map_id_double_updateFirst {l : List ParentPart} {q : ParentPart → Bool}
    {f : ParentPart → ParentPart} (hid : ∀ x, (f x).id = x.id) :
    (updateFirst (updateFirst l q f) q
      (fun p => { p with status := calculate_part_status p })).map (fun p => p.id) =
    l.map (fun p => p.id) := by
  have h1 : (updateFirst (updateFirst l q f) q
      (fun p => { p with status := calculate_part_status p })).map (fun p => p.id) =
      (updateFirst l q f).map (fun p => p.id) := map_updateFirst _ (fun _ => rfl)
  have h2 : (updateFirst l q f).map (fun p => p.id) = l.map (fun p => p.id) :=
    map_updateFirst _ (fun x => hid x)
  rw [h1, h2]

theorem nodup_append_fresh {l : List ParentPart} {x : ParentPart} {n : Nat}
    (hn : (l.map (fun p => p.id)).Nodup) (hlt : ∀ p ∈ l, p.id < n)
    (hx : x.id = n) : ((l ++ [x]).map (fun p => p.id)).Nodup := by
  rw [List.map_append]
  rw [List.nodup_append]
  refine ⟨hn, by simp, ?_⟩
  intro a ha hb
  rcases List.mem_map.mp ha with ⟨p, hp, hpa⟩
  simp only [List.map_cons, List.map_nil, List.mem_singleton] at hb
  rw [hb, hx] at hpa
  exact absurd (hpa ▸ hlt p hp) (Nat.lt_irrefl n)

theorem inv_create_part (s : State) (u : User) (pl : ParentPartCreate) (h : Inv s) :
    Inv (create_part s u pl).1 := by
  unfold create_part
  by_cases hdup : s.parent_parts.any (fun p => p.sku == pl.sku && p.supplier_id == u.id)
  · simp only [hdup, if_true]
    exact h
  · have hdup2 : s.parent_parts.any (fun p => p.sku == pl.sku && p.supplier_id == u.id)
        = false := by rwa [Bool.not_eq_true] at hdup
    simp only [hdup2, Bool.false_eq_true, if_false]
    refine ⟨?_, ?_, ?_, ?_⟩
    · exact statusInvL_append h.status rfl
    · intro p hp
      rcases List.mem_append.mp hp with h1 | h2
      · exact Nat.lt_of_lt_of_le (h.idsLt p h1) (Nat.le_add_right _ 2)
      · rw [List.mem_singleton.mp h2]
        exact Nat.lt_of_lt_of_le (Nat.lt_succ_self _) (Nat.le_succ _)
    · intro p hp c hc
      rcases List.mem_append.mp hp with h1 | h2
      · exact Nat.lt_of_lt_of_le (h.childIdsLt p h1 c hc) (Nat.le_add_right _ 2)
      · rw [List.mem_singleton.mp h2] at hc
        simp at hc
    · exact nodup_append_fresh h.pidNodup h.idsLt rfl

theorem inv_update_part (s : State) (u : User) (pid : Nat) (pl : ParentPartUpdate)
    (h : Inv s) : Inv (update_part s u pid pl).1 := by
  unfold update_part
  rcases hf : findPart s u pid with _ | part
  · simp only [hf]
    exact h
  · simp only [hf]
    by_cases hch : (parentChanges part pl).isEmpty
    · simp only [hch, if_true]
      exact h
    · have hch2 : (parentChanges part pl).isEmpty = false := by
        rwa [Bool.not_eq_true] at hch
      simp only [hch2, Bool.false_eq_true, if_false]
      refine ⟨?_, ?_, ?_, ?_⟩
      · exact statusInvL_updateFirst_recalc h.status (fun x => rfl)
      · exact idsLt_double_updateFirst
          (fun p hp => Nat.lt_succ_of_lt (h.idsLt p hp)) (fun x => rfl)
      · exact childLt_double_updateFirst
          (fun p hp c hc => Nat.lt_succ_of_lt (h.childIdsLt p hp c hc))
          (fun x hx c hc => Nat.lt_succ_of_lt (h.childIdsLt x hx c hc))
      · have hm : (updateFirst (updateFirst s.parent_parts (fun p => p.id == pid)
            (fun p => parentApply p pl)) (fun p => p.id == pid)
            (fun p => { p with status := calculate_part_status p })).map
              (fun p => p.id) = s.parent_parts.map (fun p => p.id) :=
          map_id_double_updateFirst (fun x => rfl)
        exact hm ▸ h.pidNodup


theorem childMergeResult_id (old : ChildPart) (cu : ChildPartUpdate) :
    (childMergeResult old cu).id = old.id := by
  by_cases hb : (childChanges old cu).any (fun c => c.field == "weight_kg")
  · simp [childMergeResult, withRecomputedComplete, hb, childApply]
  · simp [childMergeResult, withRecomputedComplete, hb, childApply]

/-- Common preservation shape: every mutating part/child route builds
`create_audit_log (recalcStatus {s with parts := updateFirst ... f,
nextId := s.nextId + bump} pid) ...`; the invariant survives whenever `f`
preserves the part id and keeps all child ids below the final counter. -/
theorem inv_op_shape (s : State) (pid : Nat) (f : ParentPart → ParentPart)
    (bump : Nat) (u : User) (act ent : String) (eid : Nat) (fc : List FieldChange)
    (h : Inv s) (hid : ∀ x, (f x).id = x.id)
    (hch : ∀ x ∈ s.parent_parts, ∀ c ∈ (f x).child_parts, c.id < s.nextId + bump + 1) :
    Inv (create_audit_log
      (recalcStatus
        { s with
          parent_parts := updateFirst s.parent_parts (fun p => p.id == pid) f,
          nextId := s.nextId + bump } pid)
      u act ent eid fc (actorScope u)) := by
  refine ⟨?_, ?_, ?_, ?_⟩
  · exact statusInvL_updateFirst_recalc h.status (fun x => by rw [hid x])
  · exact idsLt_double_updateFirst
      (fun p hp => Nat.lt_of_lt_of_le (h.idsLt p hp)
        (Nat.le_trans (Nat.le_add_right _ bump) (Nat.le_succ _))) hid
  · exact childLt_double_updateFirst
      (fun p hp c hc => Nat.lt_of_lt_of_le (h.childIdsLt p hp c hc)
        (Nat.le_trans (Nat.le_add_right _ bump) (Nat.le_succ _))) hch
  · have hm : (updateFirst (updateFirst s.parent_parts (fun p => p.id == pid) f)
        (fun p => p.id == pid)
        (fun p => { p with status := calculate_part_status p })).map (fun p => p.id) =
        s.parent_parts.map (fun p => p.id) := map_id_double_updateFirst hid
    exact hm ▸ h.pidNodup

theorem inv_delete_part (s : State) (u : User) (pid : Nat) (h : Inv s) :
    Inv (delete_part s u pid).1 := by
  unfold delete_part
  rcases hf : findPart s u pid with _ | part
  · simp only [hf]
    exact h
  · simp only [hf]
    have hsub : List.Sublist (s.parent_parts.eraseP (fun p => p.id == pid))
        s.parent_parts := List.eraseP_sublist _
    refine ⟨?_, ?_, ?_, ?_⟩
    · intro p hp
      exact h.status p (hsub.subset hp)
    · intro p hp
      exact Nat.lt_succ_of_lt (h.idsLt p (hsub.subset hp))
    · intro p hp c hc
      exact Nat.lt_succ_of_lt (h.childIdsLt p (hsub.subset hp) c hc)
    · exact List.Nodup.sublist (List.Sublist.map _ hsub) h.pidNodup

theorem inv_add_child_part (s : State) (u : User) (pid : Nat) (cd : ChildPartCreate)
    (h : Inv s) : Inv (add_child_part s u pid cd).1 := by
  unfold add_child_part
  rcases hf : findPart s u pid with _ | part
  · simp only [hf]
    exact h
  · simp only [hf]
    refine inv_op_shape s pid _ 1 u "create" "child_part" _ _ h (fun x => rfl) ?_
    intro x _ c hc
    rcases List.mem_append.mp hc with h1 | h2
    · exact Nat.lt_of_lt_of_le (h.childIdsLt x ‹x ∈ s.parent_parts› c h1)
        (Nat.le_add_right _ 2)
    · rw [List.mem_singleton.mp h2]
      exact Nat.lt_succ_of_lt (Nat.lt_succ_self _)

theorem inv_update_child_part (s : State) (u : User) (pid cid : Nat)
    (cu : ChildPartUpdate) (h : Inv s) : Inv (update_child_part s u pid cid cu).1 := by
  unfold update_child_part
  rcases hf : findPart s u pid with _ | part
  · simp only [hf]
    exact h
  · simp only [hf]
    rcases hc : part.child_parts.find? (fun cp => cp.id == cid) with _ | old
    · simp only [hc]
      exact h
    · simp only [hc]
      by_cases hch : (childChanges old cu).isEmpty
      · simp only [hch, if_true]
        exact h
      · have hch2 : (childChanges old cu).isEmpty = false := by
          rwa [Bool.not_eq_true] at hch
        simp only [hch2, Bool.false_eq_true, if_false]
        have hfind' : s.parent_parts.find?
            (fun p => p.id == pid && scopeOk u p.supplier_id) = some part := hf
        have holdlt : old.id < s.nextId :=
          h.childIdsLt part (List.mem_of_find?_eq_some hfind') old
            (List.mem_of_find?_eq_some hc)
        refine inv_op_shape s pid _ 0 u "update" "child_part" _ _ h (fun x => rfl) ?_
        intro x hx c hc2
        rcases mem_updateFirst hc2 with h1 | ⟨c0, _, _, hcc⟩
        · exact Nat.lt_succ_of_lt (h.childIdsLt x hx c h1)
        · rw [hcc, childMergeResult_id]
          exact Nat.lt_succ_of_lt holdlt

theorem inv_delete_child_part (s : State) (u : User) (pid cid : Nat) (h : Inv s) :
    Inv (delete_child_part s u pid cid).1 := by
  unfold delete_child_part
  rcases hf : findPart s u pid with _ | part
  · simp only [hf]
    exact h
  · simp only [hf]
    rcases hc : part.child_parts.find? (fun cp => cp.id == cid) with _ | deleted
    · simp only [hc]
      exact h
    · simp only [hc]
      refine inv_op_shape s pid _ 0 u "delete" "child_part" _ _ h (fun x => rfl) ?_
      intro x hx c hc2
      exact Nat.lt_succ_of_lt (h.childIdsLt x hx c (List.mem_of_mem_filter hc2))

theorem inv_duplicate_child_part (s : State) (u : User) (pid cid : Nat) (h : Inv s) :
    Inv (duplicate_child_part s u pid cid).1 := by
  unfold duplicate_child_part
  rcases hf : findPart s u pid with _ | part
  · simp only [hf]
    exact h
  · simp only [hf]
    rcases hc : part.child_parts.find? (fun cp => cp.id == cid) with _ | source
    · simp only [hc]
      exact h
    · simp only [hc]
      refine inv_op_shape s pid _ 1 u "create" "child_part" _ _ h (fun x => rfl) ?_
      intro x hx c hc2
      rcases List.mem_append.mp hc2 with h1 | h2
      · exact Nat.lt_of_lt_of_le (h.childIdsLt x hx c h1) (Nat.le_add_right _ 2)
      · rw [List.mem_singleton.mp h2]
        exact Nat.lt_succ_of_lt (Nat.lt_succ_self _)

theorem uploadRefChild_fields (d : Nat) (ids : List Nat) (cp : ChildPart) :
    (uploadRefChild d ids cp).id = cp.id ∧
    (uploadRefChild d ids cp).is_complete = cp.is_complete ∧
    (uploadRefChild d ids cp).weight_kg = cp.weight_kg := by
  unfold uploadRefChild
  split <;> exact ⟨rfl, rfl, rfl⟩

theorem docSyncChild_fields (did : Nat) (oldIds newIds : List Nat) (cp : ChildPart) :
    (docSyncChild did oldIds newIds cp).id = cp.id ∧
    (docSyncChild did oldIds newIds cp).is_complete = cp.is_complete ∧
    (docSyncChild did oldIds newIds cp).weight_kg = cp.weight_kg := by
  unfold docSyncChild
  split <;> split <;> exact ⟨rfl, rfl, rfl⟩

theorem docScrubChild_fields (did : Nat) (cp : ChildPart) :
    (docScrubChild did cp).id = cp.id ∧
    (docScrubChild did cp).is_complete = cp.is_complete ∧
    (docScrubChild did cp).weight_kg = cp.weight_kg := by
  unfold docScrubChild
  split <;> exact ⟨rfl, rfl, rfl⟩

theorem mapkey_childNeutral {g : ChildPart → ChildPart}
    (hg : ∀ c, (g c).is_complete = c.is_complete ∧ (g c).weight_kg = c.weight_kg) :
    ∀ l : List ChildPart, (l.map g).map (fun c => (c.is_complete, c.weight_kg)) =
      l.map (fun c => (c.is_complete, c.weight_kg)) := by
  intro l
  induction l with
  | nil => rfl
  | cons c cs ih => simp [ih, (hg c).1, (hg c).2]

theorem map_map_id_eq {l : List ParentPart} {f : ParentPart → ParentPart}
    (hid : ∀ x, (f x).id = x.id) :
    (l.map f).map (fun p => p.id) = l.map (fun p => p.id) := by
  induction l with
  | nil => rfl
  | cons x xs ih => simp [hid, ih]

theorem inv_create_audit_log (st : State) (u : User) (a e : String) (i : Nat)
    (fc : List FieldChange) (sup : Option Nat) (h : Inv st) :
    Inv (create_audit_log st u a e i fc sup) :=
  ⟨h.status, fun p hp => Nat.lt_succ_of_lt (h.idsLt p hp),
   fun p hp c hc => Nat.lt_succ_of_lt (h.childIdsLt p hp c hc), h.pidNodup⟩

theorem inv_docs_set (st : State) (d : List Document) (h : Inv st) :
    Inv { st with documents := d } :=
  ⟨h.status, h.idsLt, h.childIdsLt, h.pidNodup⟩

theorem inv_docs_append_bump (st : State) (d : List Document) (h : Inv st) :
    Inv { st with documents := d, nextId := st.nextId + 1 } :=
  ⟨h.status, fun p hp => Nat.lt_succ_of_lt (h.idsLt p hp),
   fun p hp c hc => Nat.lt_succ_of_lt (h.childIdsLt p hp c hc), h.pidNodup⟩

theorem inv_foldl_modifyPart (g : ParentPart → ParentPart)
    (hst : ∀ x, (g x).status = x.status)
    (hcalc : ∀ x, calculate_part_status (g x) = calculate_part_status x)
    (hid : ∀ x, (g x).id = x.id)
    (hch : ∀ x, (g x).child_parts = x.child_parts) :
    ∀ (l : List Nat) (st : State), Inv st →
      Inv (l.foldl (fun st2 pid => modifyPart st2 pid g) st) := by
  intro l
  induction l with
  | nil => intro st h; exact h
  | cons x xs ih =>
    intro st h
    rw [List.foldl_cons]
    apply ih
    refine ⟨?_, ?_, ?_, ?_⟩
    · exact statusInvL_updateFirst_neutral h.status hst hcalc
    · exact idsLt_updateFirst h.idsLt hid
    · refine childLt_updateFirst h.childIdsLt ?_
      intro y hy c hc
      exact h.childIdsLt y hy c ((hch y) ▸ hc)
    · have hm : (updateFirst st.parent_parts (fun p => p.id == x) g).map
          (fun p => p.id) = st.parent_parts.map (fun p => p.id) :=
        map_updateFirst _ (fun y => hid y)
      exact hm ▸ h.pidNodup

theorem inv_map_parts (s : State) (f : ParentPart → ParentPart)
    (d : List Document) (a : List AuditLog)
    (hst : ∀ x, (f x).status = x.status)
    (hid : ∀ x, (f x).id = x.id)
    (hcalc : ∀ x, calculate_part_status (f x) = calculate_part_status x)
    (hcid : ∀ x, ∀ c ∈ (f x).child_parts, ∃ c0 ∈ x.child_parts, c.id = c0.id)
    (h : Inv s) :
    Inv { parent_parts := s.parent_parts.map f, documents := d,
          audit_logs := a, nextId := s.nextId } := by
  refine ⟨?_, ?_, ?_, ?_⟩
  · exact statusInvL_map_neutral h.status hst hcalc
  · intro p hp
    rcases List.mem_map.mp hp with ⟨x, hx, hpx⟩
    rw [← hpx, hid]
    exact h.idsLt x hx
  · intro p hp c hc
    rcases List.mem_map.mp hp with ⟨x, hx, hpx⟩
    rcases hcid x c (hpx ▸ hc) with ⟨c0, hc0, hceq⟩
    rw [hceq]
    exact h.childIdsLt x hx c0 hc0
  · show ((s.parent_parts.map f).map (fun p => p.id)).Nodup
    rw [map_map_id_eq hid]
    exact h.pidNodup

theorem mem_map_childNeutral {g : ChildPart → ChildPart}
    (hg : ∀ c, (g c).id = c.id) {l : List ChildPart} {c : ChildPart}
    (hc : c ∈ l.map g) : ∃ c0 ∈ l, c.id = c0.id := by
  rcases List.mem_map.mp hc with ⟨c0, hc0, hcc⟩
  exact ⟨c0, hc0, by rw [← hcc, hg]⟩

theorem inv_upload_document (s : State) (u : User) (fn : String)
    (pids cids : List Nat) (h : Inv s) : Inv (upload_document s u fn pids cids).1 := by
  unfold upload_document
  apply inv_create_audit_log
  apply inv_map_parts
  · intro x
    by_cases hx : x.supplier_id == u.id <;> simp [hx]
  · intro x
    by_cases hx : x.supplier_id == u.id <;> simp [hx]
  · intro x
    by_cases hx : x.supplier_id == u.id
    · simp only [hx, if_true]
      apply calc_congr
      · exact mapkey_childNeutral
          (fun c => ⟨(uploadRefChild_fields _ _ c).2.1,
            (uploadRefChild_fields _ _ c).2.2⟩) _
      · rfl
    · simp only [hx, Bool.false_eq_true, if_false]
  · intro x c hc
    by_cases hx : x.supplier_id == u.id
    · simp only [hx, if_true] at hc
      exact mem_map_childNeutral (fun c2 => (uploadRefChild_fields _ _ c2).1) hc
    · simp only [hx, Bool.false_eq_true, if_false] at hc
      exact ⟨c, hc, rfl⟩
  · apply inv_foldl_modifyPart
    · intro x
      rfl
    · intro x
      rfl
    · intro x
      rfl
    · intro x
      rfl
    · exact inv_docs_append_bump s _ h

theorem inv_delete_document (s : State) (u : User) (did : Nat) (h : Inv s) :
    Inv (delete_document s u did).1 := by
  unfold delete_document
  rcases hfd : s.documents.find? (fun d => d.id == did && scopeOk u d.supplier_id)
    with _ | doc
  · simp only [hfd]
    exact h
  · simp only [hfd]
    apply inv_create_audit_log
    apply inv_map_parts
    · intro x
      rfl
    · intro x
      rfl
    · intro x
      apply calc_congr
      · exact mapkey_childNeutral
          (fun c => ⟨(docScrubChild_fields _ c).2.1, (docScrubChild_fields _ c).2.2⟩) _
      · rfl
    · intro x c hc
      exact mem_map_childNeutral (fun c2 => (docScrubChild_fields _ c2).1) hc
    · exact h

theorem inv_update_document (s : State) (u : User) (did : Nat) (du : DocumentUpdate)
    (h : Inv s) : Inv (update_document s u did du).1 := by
  unfold update_document
  rcases hfd : s.documents.find? (fun d => d.id == did && scopeOk u d.supplier_id)
    with _ | doc
  · simp only [hfd]
    exact h
  · simp only [hfd]
    have hsync : ∀ (st : State) (oldIds newIds : List Nat), Inv st →
        Inv { st with parent_parts := st.parent_parts.map (fun p =>
          if p.supplier_id == u.id then
            { p with child_parts := p.child_parts.map (docSyncChild did oldIds newIds) }
          else p) } := by
      intro st oldIds newIds hst
      apply inv_map_parts
      · intro x
        by_cases hx : x.supplier_id == u.id <;> simp [hx]
      · intro x
        by_cases hx : x.supplier_id == u.id <;> simp [hx]
      · intro x
        by_cases hx : x.supplier_id == u.id
        · simp only [hx, if_true]
          apply calc_congr
          · exact mapkey_childNeutral
              (fun c => ⟨(docSyncChild_fields _ _ _ c).2.1,
                (docSyncChild_fields _ _ _ c).2.2⟩) _
          · rfl
        · simp only [hx, Bool.false_eq_true, if_false]
      · intro x c hc
        by_cases hx : x.supplier_id == u.id
        · simp only [hx, if_true] at hc
          exact mem_map_childNeutral (fun c2 => (docSyncChild_fields _ _ _ c2).1) hc
        · simp only [hx, Bool.false_eq_true, if_false] at hc
          exact ⟨c, hc, rfl⟩
      · exact hst
    have hpull : ∀ (st : State) (ids : List Nat), Inv st →
        Inv (ids.foldl (fun st2 pid => modifyPart st2 pid
          (fun p => { p with document_ids := p.document_ids.filter (fun i => i != did) }))
          st) := by
      intro st ids hst
      exact inv_foldl_modifyPart
        (fun p => { p with document_ids := p.document_ids.filter (fun i => i != did) })
        (fun x => rfl) (fun x => rfl) (fun x => rfl) (fun x => rfl) ids st hst
    have hadd : ∀ (st : State) (ids : List Nat), Inv st →
        Inv (ids.foldl (fun st2 pid => modifyPart st2 pid
          (fun p => { p with document_ids := addToSet p.document_ids did })) st) := by
      intro st ids hst
      exact inv_foldl_modifyPart
        (fun p => { p with document_ids := addToSet p.document_ids did })
        (fun x => rfl) (fun x => rfl) (fun x => rfl) (fun x => rfl) ids st hst
    rcases hp : du.parent_part_ids with _ | newPids <;>
      rcases hc2 : du.child_part_ids with _ | newCids <;>
        simp only [hp, hc2] <;>
          repeat' split
    all_goals
      first
        | exact h
        | exact hsync _ _ _ h
        | exact hadd _ _ (hpull _ _ h)
        | exact hsync _ _ _ (hadd _ _ (hpull _ _ h))
        | (apply inv_create_audit_log
           apply inv_docs_set
           first
             | exact h
             | exact hsync _ _ _ h
             | exact hadd _ _ (hpull _ _ h)
             | exact hsync _ _ _ (hadd _ _ (hpull _ _ h)))

/-- Weakened invariant holding mid-way through an import group: the status
agreement may be broken only for parts with id `pid` (the group's parent),
which the group's final status recomputation repairs. -/
def invExcept (pid : Nat) (s : State) : Prop :=
  (∀ p ∈ s.parent_parts, (p.id == pid) = false → p.status = calculate_part_status p) ∧
  (∀ p ∈ s.parent_parts, p.id < s.nextId) ∧
  (∀ p ∈ s.parent_parts, ∀ c ∈ p.child_parts, c.id < s.nextId) ∧
  (s.parent_parts.map (fun p => p.id)).Nodup

theorem invExcept_of_inv {pid : Nat} {s : State} (h : Inv s) : invExcept pid s :=
  ⟨fun p hp _ => h.status p hp, h.idsLt, h.childIdsLt, h.pidNodup⟩

theorem importUpdateChild_id (old : ChildPart) (r : Row) :
    (importUpdateChild old r).id = old.id := rfl

theorem invExcept_importChildStep (u : User) (pid : Nat) (st : State)
    (res : ImportResult) (r : Row) (h : invExcept pid st) :
    invExcept pid (importChildStep u pid (st, res) r).1 := by
  unfold importChildStep
  rcases hcid : r.child_identifier with _ | cid
  · simp only [hcid]
    exact h
  · simp only [hcid]
    rcases hfp2 : st.parent_parts.find? (fun p => p.id == pid) with _ | pdoc
    · simp only [hfp2]
      exact h
    · simp only [hfp2]
      rcases hfc : pdoc.child_parts.find? (fun cp => cp.identifier == cid) with _ | oldc
      · simp only [hfc]
        -- create-child branch: push a fresh child, bump the counter
        have hpm : pdoc ∈ st.parent_parts := List.mem_of_find?_eq_some hfp2
        refine ⟨?_, ?_, ?_, ?_⟩
        · intro p hp hfalse
          rcases mem_updateFirst hp with h1 | ⟨x, hx, hqx, hpx⟩
          · exact h.1 p h1 hfalse
          · rw [hpx] at hfalse
            have hxid : (x.id == pid) = false := hfalse
            rw [hxid] at hqx
            exact (Bool.false_ne_true hqx).elim
        · intro p hp
          rcases mem_updateFirst hp with h1 | ⟨x, hx, _, hpx⟩
          · exact Nat.lt_succ_of_lt (h.2.1 p h1)
          · rw [hpx]
            exact Nat.lt_succ_of_lt (h.2.1 x hx)
        · intro p hp c hc
          rcases mem_updateFirst hp with h1 | ⟨x, hx, _, hpx⟩
          · exact Nat.lt_succ_of_lt (h.2.2.1 p h1 c hc)
          · rw [hpx] at hc
            rcases List.mem_append.mp hc with h2 | h3
            · exact Nat.lt_succ_of_lt (h.2.2.1 x hx c h2)
            · rw [List.mem_singleton.mp h3]
              exact Nat.lt_succ_self _
        · have hm : (updateFirst st.parent_parts (fun p => p.id == pid)
              (fun p => { p with child_parts := p.child_parts ++
                [importCreateChild st.nextId cid r] })).map (fun p => p.id) =
              st.parent_parts.map (fun p => p.id) := map_updateFirst _ (fun y => rfl)
          exact hm ▸ h.2.2.2
      · simp only [hfc]
        -- merge-child branch
        have hpm : pdoc ∈ st.parent_parts := List.mem_of_find?_eq_some hfp2
        refine ⟨?_, ?_, ?_, ?_⟩
        · intro p hp hfalse
          rcases mem_updateFirst hp with h1 | ⟨x, hx, hqx, hpx⟩
          · exact h.1 p h1 hfalse
          · rw [hpx] at hfalse
            have hxid : (x.id == pid) = false := hfalse
            rw [hxid] at hqx
            exact (Bool.false_ne_true hqx).elim
        · intro p hp
          rcases mem_updateFirst hp with h1 | ⟨x, hx, _, hpx⟩
          · exact h.2.1 p h1
          · rw [hpx]
            exact h.2.1 x hx
        · intro p hp c hc
          rcases mem_updateFirst hp with h1 | ⟨x, hx, _, hpx⟩
          · exact h.2.2.1 p h1 c hc
          · rw [hpx] at hc
            have hc2 : c ∈ updateFirst x.child_parts (fun cp => cp.identifier == cid)
                (fun cp => importUpdateChild cp r) := hc
            rcases mem_updateFirst hc2 with h2 | ⟨c0, hc0, _, hcc⟩
            · exact h.2.2.1 x hx c h2
            · rw [hcc, importUpdateChild_id]
              exact h.2.2.1 x hx c0 hc0
        · have hm : (updateFirst st.parent_parts (fun p => p.id == pid)
              (importMergeInto cid r)).map (fun p => p.id) =
              st.parent_parts.map (fun p => p.id) := map_updateFirst _ (fun y => rfl)
          exact hm ▸ h.2.2.2

theorem invExcept_foldl_importChildStep (u : User) (pid : Nat) (rows2 : List Row) :
    ∀ (st : State) (res : ImportResult), invExcept pid st →
      invExcept pid (rows2.foldl (importChildStep u pid) (st, res)).1 := by
  induction rows2 with
  | nil => intro st res h; exact h
  | cons r rs ih =>
    intro st res h
    rw [List.foldl_cons]
    have hstep := invExcept_importChildStep u pid st res r h
    rcases hpair : importChildStep u pid (st, res) r with ⟨st2, res2⟩
    rw [hpair] at hstep
    exact ih st2 res2 hstep

theorem inv_recalcStatus_of_invExcept {pid : Nat} {s : State}
    (h : invExcept pid s) : Inv (recalcStatus s pid) := by
  unfold recalcStatus
  have hm : (updateFirst s.parent_parts (fun p => p.id == pid)
      (fun p => { p with status := calculate_part_status p })).map (fun p => p.id) =
      s.parent_parts.map (fun p => p.id) := map_updateFirst _ (fun y => rfl)
  rcases hfind : s.parent_parts.find? (fun p => p.id == pid) with _ | x0
  · have hall : ∀ y ∈ s.parent_parts, (fun p => p.id == pid) y = false := by
      intro y hy
      have := List.find?_eq_none.mp hfind y hy
      simpa using this
    have heq : updateFirst s.parent_parts (fun p => p.id == pid)
        (fun p => { p with status := calculate_part_status p }) = s.parent_parts :=
      updateFirst_eq_self hall
    refine ⟨?_, ?_, ?_, ?_⟩
    · intro p hp
      rw [heq] at hp
      exact h.1 p hp (hall p hp)
    · intro p hp
      rw [heq] at hp
      exact h.2.1 p hp
    · intro p hp
      rw [heq] at hp
      exact h.2.2.1 p hp
    · exact hm ▸ h.2.2.2
  · rcases find?_decomp hfind with ⟨l1, l2, heql, hl1⟩
    have hx0id : (x0.id == pid) = true := by
      have := List.find?_some hfind
      simpa using this
    have heq : updateFirst s.parent_parts (fun p => p.id == pid)
        (fun p => { p with status := calculate_part_status p }) =
        l1 ++ { x0 with status := calculate_part_status x0 } :: l2 := by
      rw [heql]
      exact updateFirst_append hl1 hx0id
    have hnodup2 : ((l1 ++ x0 :: l2).map (fun p => p.id)).Nodup := heql ▸ h.2.2.2
    have hx0notl2 : ∀ y ∈ l2, (y.id == pid) = false := by
      intro y hy
      rw [List.map_append, List.nodup_append] at hnodup2
      have hx0l2 : x0.id ∉ l2.map (fun p => p.id) := by
        have := hnodup2.2.1
        rw [List.map_cons, List.nodup_cons] at this
        exact this.1
      by_contra hcon
      rw [Bool.not_eq_false, beq_iff_eq] at hcon
      have hx0pid : x0.id = pid := beq_iff_eq.mp hx0id
      exact hx0l2 (by rw [hx0pid, ← hcon]; exact List.mem_map_of_mem _ hy)
    refine ⟨?_, ?_, ?_, ?_⟩
    · intro p hp
      rw [heq] at hp
      rcases List.mem_append.mp hp with h1 | h2
      · exact h.1 p (heql ▸ List.mem_append_left _ h1) (hl1 p h1)
      · rcases List.mem_cons.mp h2 with h3 | h4
        · rw [h3]
          rfl
        · exact h.1 p (heql ▸ List.mem_append_right _ (List.mem_cons_of_mem _ h4))
            (hx0notl2 p h4)
    · intro p hp
      rw [heq] at hp
      rcases List.mem_append.mp hp with h1 | h2
      · exact h.2.1 p (heql ▸ List.mem_append_left _ h1)
      · rcases List.mem_cons.mp h2 with h3 | h4
        · rw [h3]
          exact h.2.1 x0 (heql ▸ List.mem_append_right _ (List.mem_cons_self _ _))
        · exact h.2.1 p (heql ▸ List.mem_append_right _ (List.mem_cons_of_mem _ h4))
    · intro p hp c hc
      rw [heq] at hp
      rcases List.mem_append.mp hp with h1 | h2
      · exact h.2.2.1 p (heql ▸ List.mem_append_left _ h1) c hc
      · rcases List.mem_cons.mp h2 with h3 | h4
        · rw [h3] at hc
          exact h.2.2.1 x0 (heql ▸ List.mem_append_right _ (List.mem_cons_self _ _)) c hc
        · exact h.2.2.1 p (heql ▸ List.mem_append_right _ (List.mem_cons_of_mem _ h4)) c hc
    · exact hm ▸ h.2.2.2

theorem invExcept_modifyPart (st : State) (pid : Nat) (f : ParentPart → ParentPart)
    (hid : ∀ x, (f x).id = x.id)
    (hch : ∀ x, (f x).child_parts = x.child_parts)
    (h : Inv st) : invExcept pid (modifyPart st pid f) := by
  unfold modifyPart
  refine ⟨?_, ?_, ?_, ?_⟩
  · intro p hp hfalse
    rcases mem_updateFirst hp with h1 | ⟨x, hx, hqx, hpx⟩
    · exact h.status p h1
    · rw [hpx, hid x] at hfalse
      rw [hfalse] at hqx
      exact (Bool.false_ne_true hqx).elim
  · exact idsLt_updateFirst h.idsLt hid
  · refine childLt_updateFirst h.childIdsLt ?_
    intro x hx c hc
    exact h.childIdsLt x hx c ((hch x) ▸ hc)
  · have hm : (updateFirst st.parent_parts (fun p => p.id == pid) f).map (fun p => p.id) =
        st.parent_parts.map (fun p => p.id) := map_updateFirst _ (fun y => hid y)
    exact hm ▸ h.pidNodup

theorem inv_nextId_bump (st : State) (h : Inv st) :
    Inv { st with nextId := st.nextId + 1 } :=
  ⟨h.status, fun p hp => Nat.lt_succ_of_lt (h.idsLt p hp),
   fun p hp c hc => Nat.lt_succ_of_lt (h.childIdsLt p hp c hc), h.pidNodup⟩

theorem inv_importGroup (u : User) (rows : List Row) (acc : State × ImportResult)
    (sku : String) (h : Inv acc.1) : Inv (importGroup u rows acc sku).1 := by
  unfold importGroup
  rcases hh : (rows.filter (fun r => r.parent_sku == some sku)).head? with _ | first
  · simp only [hh]
    exact h
  · simp only [hh]
    rcases hf : acc.1.parent_parts.find? (fun p => p.sku == sku && p.supplier_id == u.id)
        with _ | ep
    · simp only [hf]
      -- new-parent branch: the appended parent carries status `"incomplete"`,
      -- which is what `calculate_part_status` yields on its empty child list
      have h1 : Inv { acc.1 with
          parent_parts := acc.1.parent_parts ++ [importCreateParent acc.1.nextId u.id sku first],
          nextId := acc.1.nextId + 1 } := by
        refine ⟨?_, ?_, ?_, ?_⟩
        · refine statusInvL_append h.status ?_
          rfl
        · intro p hp
          rcases List.mem_append.mp hp with h2 | h3
          · exact Nat.lt_succ_of_lt (h.idsLt p h2)
          · rw [List.mem_singleton.mp h3]
            exact Nat.lt_succ_self _
        · intro p hp c hc
          rcases List.mem_append.mp hp with h2 | h3
          · exact Nat.lt_succ_of_lt (h.childIdsLt p h2 c hc)
          · rw [List.mem_singleton.mp h3] at hc
            exact absurd hc (List.not_mem_nil c)
        · exact nodup_append_fresh h.pidNodup h.idsLt rfl
      exact inv_recalcStatus_of_invExcept
        (invExcept_foldl_importChildStep u (importCreateParent acc.1.nextId u.id sku first).id
          (rows.filter (fun r => r.parent_sku == some sku)) _ _ (invExcept_of_inv h1))
    · simp only [hf]
      -- existing-parent branch: the parent-field overwrite may break the status
      -- agreement at `ep.id` only, and the trailing recompute restores it
      have h1 : invExcept ep.id (if importAnyParentUpd first then
          modifyPart acc.1 ep.id (fun p => importParentApply p first) else acc.1) := by
        by_cases hu : importAnyParentUpd first = true
        · rw [if_pos hu]
          exact invExcept_modifyPart acc.1 ep.id _ (fun x => rfl) (fun x => rfl) h
        · rw [if_neg hu]
          exact invExcept_of_inv h
      exact inv_recalcStatus_of_invExcept
        (invExcept_foldl_importChildStep u ep.id
          (rows.filter (fun r => r.parent_sku == some sku)) _ _ h1)

theorem inv_foldl_importGroup (u : User) (rows : List Row) (skus : List String) :
    ∀ (acc : State × ImportResult), Inv acc.1 →
      Inv (skus.foldl (importGroup u rows) acc).1 := by
  induction skus with
  | nil => intro acc h; exact h
  | cons x xs ih =>
    intro acc h
    rw [List.foldl_cons]
    exact ih _ (inv_importGroup u rows acc x h)

theorem inv_import_excel (s : State) (u : User) (rows : List Row) (h : Inv s) :
    Inv (import_excel s u rows).1 := by
  unfold import_excel
  have h1 : Inv ((uniqueFirstAux [] (rows.filterMap (fun r => r.parent_sku))).foldl
      (importGroup u rows) (s, ⟨0, 0, 0, 0, []⟩)).1 :=
    inv_foldl_importGroup u rows _ _ h
  exact inv_create_audit_log _ u _ _ _ _ _ (inv_nextId_bump _ h1)

/-- One mutating request of the backend, as a transition relation on the
stored state (every route that writes to the collections). -/
inductive Step : State → State → Prop where
  | createPart (s : State) (u : User) (pl : ParentPartCreate) :
      Step s (create_part s u pl).1
  | updatePart (s : State) (u : User) (pid : Nat) (pl : ParentPartUpdate) :
      Step s (update_part s u pid pl).1
  | deletePart (s : State) (u : User) (pid : Nat) :
      Step s (delete_part s u pid).1
  | addChildPart (s : State) (u : User) (pid : Nat) (cd : ChildPartCreate) :
      Step s (add_child_part s u pid cd).1
  | updateChildPart (s : State) (u : User) (pid cid : Nat) (cu : ChildPartUpdate) :
      Step s (update_child_part s u pid cid cu).1
  | deleteChildPart (s : State) (u : User) (pid cid : Nat) :
      Step s (delete_child_part s u pid cid).1
  | duplicateChildPart (s : State) (u : User) (pid cid : Nat) :
      Step s (duplicate_child_part s u pid cid).1
  | uploadDocument (s : State) (u : User) (fn : String) (pids cids : List Nat) :
      Step s (upload_document s u fn pids cids).1
  | updateDocument (s : State) (u : User) (did : Nat) (du : DocumentUpdate) :
      Step s (update_document s u did du).1
  | deleteDocument (s : State) (u : User) (did : Nat) :
      Step s (delete_document s u did).1
  | importExcel (s : State) (u : User) (rows : List Row) :
      Step s (import_excel s u rows).1

/-- States reachable from the empty database through mutating requests. -/
inductive Reachable : State → Prop where
  | init : Reachable ⟨[], [], [], 0⟩
  | step {s t : State} (hr : Reachable s) (hs : Step s t) : Reachable t

theorem inv_init : Inv ⟨[], [], [], 0⟩ :=
  ⟨fun p hp => absurd hp (List.not_mem_nil p),
   fun p hp => absurd hp (List.not_mem_nil p),
   fun p hp => absurd hp (List.not_mem_nil p),
   List.nodup_nil⟩

theorem inv_step {s t : State} (h : Inv s) (hst : Step s t) : Inv t := by
  cases hst with
  | createPart u pl => exact inv_create_part s u pl h
  | updatePart u pid pl => exact inv_update_part s u pid pl h
  | deletePart u pid => exact inv_delete_part s u pid h
  | addChildPart u pid cd => exact inv_add_child_part s u pid cd h
  | updateChildPart u pid cid cu => exact inv_update_child_part s u pid cid cu h
  | deleteChildPart u pid cid => exact inv_delete_child_part s u pid cid h
  | duplicateChildPart u pid cid => exact inv_duplicate_child_part s u pid cid h
  | uploadDocument u fn pids cids => exact inv_upload_document s u fn pids cids h
  | updateDocument u did du => exact inv_update_document s u did du h
  | deleteDocument u did => exact inv_delete_document s u did h
  | importExcel u rows => exact inv_import_excel s u rows h

theorem inv_reachable {s : State} (h : Reachable s) : Inv s := by
  induction h with
  | init => exact inv_init
  | step hr hs ih => exact inv_step ih hs

/-- The state reached from the empty database by one successful
`POST /parts` request. -/
def fxReached : State := (create_part ⟨[], [], [], 0⟩ fxUser fxDupPayload).1

/-- The parent record stored by that request. -/
def fxSeedParent : ParentPart :=
  ⟨0, "S", "X", none, 9, "incomplete", 0, 0, none, [], []⟩

/-- Claim C6: in every state reachable from the empty database through the
mutating routes (part create/update/delete, child add/update/delete/duplicate,
document upload/update/delete, Excel import), every stored parent part's
`status` field equals `calculate_part_status` recomputed on the stored
record — i.e. the status recompute performed after each mutation keeps the
derived status in sync. -/
theorem C6_reachable_status_recomputed (s : State) (p : ParentPart)
    (h : Reachable s) (hp : p ∈ s.parent_parts) :
    p.status = calculate_part_status p :=
  (inv_reachable h).status p hp

theorem C6_reachable_status_recomputed_witness :
    Reachable fxReached ∧ fxSeedParent ∈ fxReached.parent_parts ∧
      fxSeedParent.status = calculate_part_status fxSeedParent := by
  have hre : Reachable fxReached :=
    Reachable.step Reachable.init (Step.createPart ⟨[], [], [], 0⟩ fxUser fxDupPayload)
  have hp : fxSeedParent ∈ fxReached.parent_parts := List.Mem.head _
  exact ⟨hre, hp, C6_reachable_status_recomputed fxReached fxSeedParent hre hp⟩

/-- Counterexample to claim C5: re-importing the unmodified export of
`fxState` (one parent `"S"` with one child `"C"`, nothing changed) reports
`updated_parents = 1` and `updated_children = 1`, not all-zero counters —
the import counts every matched parent and child as updated without
comparing values. -/
theorem C5_counterexample_roundtrip_counts :
    (import_excel fxState fxUser (exportRows fxState fxUser)).2 =
      ⟨0, 1, 0, 1, []⟩ := rfl

/-- The spreadsheet block `export_parts` emits for one parent: a single
parent-only row when it has no children, one row per child otherwise. -/
def blockOf (p : ParentPart) : List Row :=
  if p.child_parts.isEmpty then [parentOnlyRow p] else p.child_parts.map (childRow p)

theorem exportRows_eq_flatMap (s : State) (u : User) (hrole : u.role = "supplier") :
    exportRows s u =
      (s.parent_parts.filter (fun p => p.supplier_id == u.id)).flatMap blockOf := by
  unfold exportRows blockOf
  rw [hrole]
  rfl

theorem updateFirst_fix {l : List α} {q : α → Bool} {f : α → α}
    (h : ∀ x ∈ l, q x = true → f x = x) : updateFirst l q f = l := by
  induction l with
  | nil => rfl
  | cons x xs ih =>
    unfold updateFirst
    by_cases hq : q x = true
    · rw [if_pos hq, h x (List.mem_cons_self x xs) hq]
    · rw [if_neg hq, ih (fun y hy hqy => h y (List.mem_cons_of_mem x hy) hqy)]

theorem nodup_map_inj {k : α → β} : ∀ {l : List α}, ((l.map k).Nodup) →
    ∀ {x y : α}, x ∈ l → y ∈ l → k x = k y → x = y := by
  intro l
  induction l with
  | nil => intro _ x y hx _ _; exact absurd hx (List.not_mem_nil x)
  | cons a as ih =>
    intro hn x y hx hy hk
    rw [List.map_cons, List.nodup_cons] at hn
    rcases List.mem_cons.mp hx with h1 | h2 <;> rcases List.mem_cons.mp hy with h3 | h4
    · rw [h1, h3]
    · rw [h1] at hk
      exact absurd (hk ▸ List.mem_map_of_mem k h4) hn.1
    · rw [h3] at hk
      exact absurd (hk ▸ List.mem_map_of_mem k h2) hn.1
    · exact ih hn.2 h2 h4 hk

theorem find?_key_self {β : Type} [BEq β] [LawfulBEq β] (k : α → β) :
    ∀ {l : List α}, ((l.map k).Nodup) → ∀ {x : α}, x ∈ l →
      l.find? (fun y => k y == k x) = some x := by
  intro l
  induction l with
  | nil => intro _ x hx; exact absurd hx (List.not_mem_nil x)
  | cons a as ih =>
    intro hn x hx
    rw [List.map_cons, List.nodup_cons] at hn
    rcases hq : (k a == k x) with _ | _
    · have hx2 : x ∈ as := by
        rcases List.mem_cons.mp hx with h1 | h2
        · rw [h1, beq_self_eq_true (k a)] at hq
          simp at hq
        · exact h2
      simp only [List.find?_cons, hq]
      exact ih hn.2 hx2
    · simp only [List.find?_cons, hq]
      rcases List.mem_cons.mp hx with h1 | h2
      · rw [h1]
      · have hax : k a = k x := eq_of_beq hq
        exact absurd (by rw [hax]; exact List.mem_map_of_mem k h2) hn.1

theorem importParentApply_parentOnlyRow (p : ParentPart) :
    importParentApply p (parentOnlyRow p) = p := by
  cases p with
  | mk i sk nm de su st w vv co ch dc => cases de <;> cases co <;> rfl

theorem importParentApply_childRow (p : ParentPart) (c : ChildPart) :
    importParentApply p (childRow p c) = p := by
  cases p with
  | mk i sk nm de su st w vv co ch dc => cases de <;> cases co <;> rfl

theorem importUpdateChild_childRow (p : ParentPart) (c : ChildPart)
    (hlbs : c.weight_lbs = some (c.weight_kg * lbsPerKg))
    (hcomp : c.is_complete = childStoredComplete c) :
    importUpdateChild c (childRow p c) = c := by
  cases c with
  | mk ci cid cnm cde cco cw cwl cv cal cst cru crp crd cmm cdocs cic =>
    rw [show (ChildPart.mk ci cid cnm cde cco cw cwl cv cal cst cru crp crd cmm
        cdocs cic).weight_lbs = cwl from rfl] at hlbs
    rw [show (ChildPart.mk ci cid cnm cde cco cw cwl cv cal cst cru crp crd cmm
        cdocs cic).is_complete = cic from rfl] at hcomp
    rw [hlbs, hcomp]
    cases cde <;> cases crd <;> cases cmm <;> rfl

theorem recalcStatus_self (s : State) (pid : Nat)
    (hst : ∀ p ∈ s.parent_parts, p.status = calculate_part_status p) :
    recalcStatus s pid = s := by
  unfold recalcStatus
  have hupd : updateFirst s.parent_parts (fun p => p.id == pid)
      (fun p => { p with status := calculate_part_status p }) = s.parent_parts := by
    apply updateFirst_fix
    intro x hx _
    rw [← hst x hx]
  rw [hupd]

theorem modifyPart_fix_self (s : State) {p : ParentPart} (f : ParentPart → ParentPart)
    (hn : (s.parent_parts.map (fun q => q.id)).Nodup) (hp : p ∈ s.parent_parts)
    (hfix : f p = p) : modifyPart s p.id f = s := by
  unfold modifyPart
  have hupd : updateFirst s.parent_parts (fun q => q.id == p.id) f = s.parent_parts := by
    apply updateFirst_fix
    intro x hx hq
    have hxid : x.id = p.id := by simpa using hq
    rw [nodup_map_inj hn hx hp hxid, hfix]
  rw [hupd]

theorem importChildStep_parentOnlyRow (u : User) (pid : Nat)
    (acc : State × ImportResult) (p : ParentPart) :
    importChildStep u pid acc (parentOnlyRow p) = acc := rfl

theorem importChildStep_childRow_self (u : User) {s : State} {p : ParentPart}
    (hn : (s.parent_parts.map (fun q => q.id)).Nodup) (hp : p ∈ s.parent_parts)
    (hcidN : (p.child_parts.map (fun c => c.identifier)).Nodup)
    {c : ChildPart} (hc : c ∈ p.child_parts)
    (hfix : importUpdateChild c (childRow p c) = c) (R : ImportResult) :
    importChildStep u p.id (s, R) (childRow p c) =
      (s, { R with updated_children := R.updated_children + 1 }) := by
  have hfind1 : s.parent_parts.find? (fun q => q.id == p.id) = some p :=
    find?_key_self (fun q => q.id) hn hp
  have hfind2 : p.child_parts.find? (fun cp => cp.identifier == c.identifier) = some c :=
    find?_key_self (fun cp => cp.identifier) hcidN hc
  have hmod : modifyPart s p.id (importMergeInto c.identifier (childRow p c)) = s := by
    apply modifyPart_fix_self s _ hn hp
    unfold importMergeInto
    have hkids : updateFirst p.child_parts (fun cp => cp.identifier == c.identifier)
        (fun cp => importUpdateChild cp (childRow p c)) = p.child_parts := by
      apply updateFirst_fix
      intro y hy hqy
      have hyid : y.identifier = c.identifier := by simpa using hqy
      rw [nodup_map_inj hcidN hy hc hyid, hfix]
    rw [hkids]
  have hsc : (childRow p c).child_identifier = some c.identifier := rfl
  unfold importChildStep
  simp only [hsc, hfind1, hfind2]
  rw [hmod]

theorem foldl_importChildStep_roundtrip (u : User) {s : State} {p : ParentPart}
    (hn : (s.parent_parts.map (fun q => q.id)).Nodup) (hp : p ∈ s.parent_parts)
    (hcidN : (p.child_parts.map (fun c => c.identifier)).Nodup)
    (hfixc : ∀ c ∈ p.child_parts, importUpdateChild c (childRow p c) = c) :
    ∀ (cs : List ChildPart), (∀ c ∈ cs, c ∈ p.child_parts) → ∀ (R : ImportResult),
      (cs.map (childRow p)).foldl (importChildStep u p.id) (s, R) =
      (s, { R with updated_children := R.updated_children + cs.length }) := by
  intro cs
  induction cs with
  | nil =>
    intro _ R
    rfl
  | cons c cs ih =>
    intro hsub R
    rw [List.map_cons, List.foldl_cons]
    rw [importChildStep_childRow_self u hn hp hcidN (hsub c (List.mem_cons_self c cs))
      (hfixc c (hsub c (List.mem_cons_self c cs))) R]
    rw [ih (fun y hy => hsub y (List.mem_cons_of_mem c hy))]
    simp [Nat.add_assoc, Nat.add_comm 1 cs.length]

theorem blockOf_sku {p : ParentPart} : ∀ r ∈ blockOf p, r.parent_sku = some p.sku := by
  intro r hr
  unfold blockOf at hr
  by_cases hch : p.child_parts.isEmpty = true
  · rw [if_pos hch] at hr
    rw [List.mem_singleton.mp hr]
    rfl
  · rw [if_neg hch] at hr
    rcases List.mem_map.mp hr with ⟨c, _, hcr⟩
    rw [← hcr]
    rfl

theorem blockOf_filterMap_sku (p : ParentPart) :
    (blockOf p).filterMap (fun r => r.parent_sku) =
      List.replicate (blockOf p).length p.sku := by
  unfold blockOf
  by_cases hch : p.child_parts.isEmpty = true
  · rw [if_pos hch]
    rfl
  · rw [if_neg hch]
    rw [List.filterMap_map]
    have h1 : ∀ (cs : List ChildPart),
        cs.filterMap ((fun r => r.parent_sku) ∘ childRow p) =
          List.replicate cs.length p.sku := by
      intro cs
      induction cs with
      | nil => rfl
      | cons c cs ih =>
        rw [List.filterMap_cons]
        simp only [Function.comp, show (childRow p c).parent_sku = some p.sku from rfl,
          List.length_cons, List.replicate_succ]
        rw [← ih]
    rw [h1, List.length_map]

theorem blockOf_ne_nil (p : ParentPart) : blockOf p ≠ [] := by
  unfold blockOf
  by_cases hch : p.child_parts.isEmpty = true
  · rw [if_pos hch]
    exact List.cons_ne_nil _ _
  · rw [if_neg hch]
    intro hmap
    rw [List.map_eq_nil_iff] at hmap
    rw [hmap] at hch
    exact hch rfl

theorem uniqueFirstAux_all_seen {b : List String} {seen : List String}
    (h : ∀ x ∈ b, x ∈ seen) (rest : List String) :
    uniqueFirstAux seen (b ++ rest) = uniqueFirstAux seen rest := by
  induction b with
  | nil => rfl
  | cons x xs ih =>
    rw [List.cons_append]
    rw [show uniqueFirstAux seen (x :: (xs ++ rest)) =
      if x ∈ seen then uniqueFirstAux seen (xs ++ rest)
      else x :: uniqueFirstAux (x :: seen) (xs ++ rest) from rfl]
    rw [if_pos (h x (List.mem_cons_self x xs))]
    exact ih (fun y hy => h y (List.mem_cons_of_mem x hy))

theorem uniqueFirstAux_block {b : List String} {a : String} {seen : List String}
    (hb : ∀ x ∈ b, x = a) (hne : b ≠ []) (ha : a ∉ seen) (rest : List String) :
    uniqueFirstAux seen (b ++ rest) = a :: uniqueFirstAux (a :: seen) rest := by
  cases b with
  | nil => exact absurd rfl hne
  | cons x xs =>
    have hx : x = a := hb x (List.mem_cons_self x xs)
    subst hx
    rw [List.cons_append]
    rw [show uniqueFirstAux seen (x :: (xs ++ rest)) =
      if x ∈ seen then uniqueFirstAux seen (xs ++ rest)
      else x :: uniqueFirstAux (x :: seen) (xs ++ rest) from rfl]
    rw [if_neg ha]
    rw [uniqueFirstAux_all_seen
      (fun y hy => (hb y (List.mem_cons_of_mem x hy)) ▸ List.mem_cons_self x seen) rest]

theorem uniqueFirstAux_flatMap_blocks :
    ∀ (ps : List ParentPart) (seen : List String),
      ((ps.map (fun p => p.sku)).Nodup) →
      (∀ p ∈ ps, p.sku ∉ seen) →
      uniqueFirstAux seen ((ps.flatMap blockOf).filterMap (fun r => r.parent_sku)) =
        ps.map (fun p => p.sku) := by
  intro ps
  induction ps with
  | nil => intro seen _ _; rfl
  | cons p ps ih =>
    intro seen hn hseen
    rw [List.map_cons, List.nodup_cons] at hn
    rw [List.flatMap_cons, List.filterMap_append, blockOf_filterMap_sku p]
    have hlen : (blockOf p).length ≠ 0 := by
      intro h0
      exact blockOf_ne_nil p (List.eq_nil_of_length_eq_zero h0)
    have hrepne : List.replicate (blockOf p).length p.sku ≠ [] := by
      intro hrep
      have := congrArg List.length hrep
      rw [List.length_replicate] at this
      exact hlen this
    rw [uniqueFirstAux_block (fun x hx => List.eq_of_mem_replicate hx) hrepne
      (hseen p (List.mem_cons_self p ps)) _]
    rw [List.map_cons]
    congr 1
    apply ih (p.sku :: seen) hn.2
    intro q hq hmem
    rcases List.mem_cons.mp hmem with h1 | h2
    · exact hn.1 (h1 ▸ List.mem_map_of_mem (fun p => p.sku) hq)
    · exact hseen q (List.mem_cons_of_mem p hq) h2

theorem filter_flatMap_block :
    ∀ {ps : List ParentPart}, ((ps.map (fun p => p.sku)).Nodup) →
      ∀ {p : ParentPart}, p ∈ ps →
      (ps.flatMap blockOf).filter (fun r => r.parent_sku == some p.sku) = blockOf p := by
  intro ps
  induction ps with
  | nil => intro _ p hp; exact absurd hp (List.not_mem_nil p)
  | cons q qs ih =>
    intro hn p hp
    rw [List.map_cons, List.nodup_cons] at hn
    rw [List.flatMap_cons, List.filter_append]
    rcases List.mem_cons.mp hp with h1 | h2
    · subst h1
      have h3 : (blockOf p).filter (fun r => r.parent_sku == some p.sku) = blockOf p := by
        apply List.filter_eq_self.mpr
        intro r hr
        rw [blockOf_sku r hr]
        exact beq_self_eq_true (some p.sku)
      have h4 : (qs.flatMap blockOf).filter (fun r => r.parent_sku == some p.sku) = [] := by
        apply List.filter_eq_nil_iff.mpr
        intro r hr
        rcases List.mem_flatMap.mp hr with ⟨q2, hq2, hrq2⟩
        rw [blockOf_sku r hrq2]
        intro hbeq
        have : q2.sku = p.sku := by simpa using hbeq
        exact hn.1 (this ▸ List.mem_map_of_mem (fun p => p.sku) hq2)
      rw [h3, h4, List.append_nil]
    · have hq2 : q.sku ≠ p.sku := by
        intro heq
        exact hn.1 (heq ▸ List.mem_map_of_mem (fun p => p.sku) h2)
      have h3 : (blockOf q).filter (fun r => r.parent_sku == some p.sku) = [] := by
        apply List.filter_eq_nil_iff.mpr
        intro r hr
        rw [blockOf_sku r hr]
        intro hbeq
        exact hq2 (by simpa using hbeq)
      rw [h3, ih hn.2 h2, List.nil_append]

theorem find?_sku_supplier (u : User) :
    ∀ {l : List ParentPart},
      (((l.filter (fun q => q.supplier_id == u.id)).map (fun q => q.sku)).Nodup) →
      ∀ {p : ParentPart}, p ∈ l.filter (fun q => q.supplier_id == u.id) →
      l.find? (fun q => q.sku == p.sku && q.supplier_id == u.id) = some p := by
  intro l
  induction l with
  | nil => intro _ p hp; exact absurd hp (List.not_mem_nil p)
  | cons a as ih =>
    intro hn p hp
    rw [List.filter_cons] at hn hp
    by_cases hsup : (a.supplier_id == u.id) = true
    · rw [if_pos hsup] at hn hp
      rw [List.map_cons, List.nodup_cons] at hn
      rcases List.mem_cons.mp hp with h1 | h2
      · subst h1
        have htest : (p.sku == p.sku && p.supplier_id == u.id) = true := by
          simp [hsup]
        simp only [List.find?_cons, htest]
      · have hasku : (a.sku == p.sku) = false := by
          rw [beq_eq_false_iff_ne]
          intro heq
          exact hn.1 (heq ▸ List.mem_map_of_mem (fun q => q.sku) h2)
        have htest : (a.sku == p.sku && a.supplier_id == u.id) = false := by
          rw [hasku]
          rfl
        simp only [List.find?_cons, htest]
        exact ih hn.2 h2
    · rw [if_neg hsup] at hn hp
      have hsupf : (a.supplier_id == u.id) = false := by simpa using hsup
      have htest : (a.sku == p.sku && a.supplier_id == u.id) = false := by
        rw [hsupf, Bool.and_false]
      simp only [List.find?_cons, htest]
      exact ih hn hp

theorem importGroup_roundtrip (s : State) (u : User)
    (hstatus : ∀ q ∈ s.parent_parts, q.status = calculate_part_status q)
    (hn : (s.parent_parts.map (fun q => q.id)).Nodup)
    (hskuN : (((s.parent_parts.filter (fun q => q.supplier_id == u.id)).map
      (fun q => q.sku)).Nodup))
    {p : ParentPart} (hp : p ∈ s.parent_parts.filter (fun q => q.supplier_id == u.id))
    (hcidN : (p.child_parts.map (fun c => c.identifier)).Nodup)
    (hfixc : ∀ c ∈ p.child_parts, importUpdateChild c (childRow p c) = c)
    (R : ImportResult) :
    importGroup u ((s.parent_parts.filter (fun q => q.supplier_id == u.id)).flatMap blockOf)
        (s, R) p.sku =
      (s, { R with updated_parents := R.updated_parents + 1,
                   updated_children := R.updated_children + p.child_parts.length }) := by
  have hps : p ∈ s.parent_parts := List.mem_of_mem_filter hp
  have hgroup := filter_flatMap_block hskuN hp
  have hfind := find?_sku_supplier u hskuN hp
  unfold importGroup
  simp only [hgroup, hfind]
  rcases hch : p.child_parts with _ | ⟨c0, cs⟩
  · have hblock : blockOf p = [parentOnlyRow p] := by
      unfold blockOf
      rw [hch]
      rfl
    have hany : importAnyParentUpd (parentOnlyRow p) = true := rfl
    have hmod : modifyPart s p.id (fun x => importParentApply x (parentOnlyRow p)) = s :=
      modifyPart_fix_self s _ hn hps (importParentApply_parentOnlyRow p)
    simp only [hblock, List.head?_cons, hany, if_true, hmod, List.foldl_cons,
      List.foldl_nil, importChildStep_parentOnlyRow]
    rw [recalcStatus_self s p.id hstatus]
    rfl
  · have hblock : blockOf p = (c0 :: cs).map (childRow p) := by
      unfold blockOf
      rw [hch]
      rfl
    have hany : importAnyParentUpd (childRow p c0) = true := rfl
    have hmod : modifyPart s p.id (fun x => importParentApply x (childRow p c0)) = s :=
      modifyPart_fix_self s _ hn hps (importParentApply_childRow p c0)
    have hfold := foldl_importChildStep_roundtrip u hn hps hcidN hfixc (c0 :: cs)
      (fun c hc => hch ▸ hc) { R with updated_parents := R.updated_parents + 1 }
    simp only [hblock, List.map_cons, List.head?_cons, hany, if_true, hmod]
    rw [← List.map_cons (childRow p) c0 cs, hfold]
    rw [recalcStatus_self s p.id hstatus]

theorem foldl_importGroup_roundtrip (s : State) (u : User)
    (hstatus : ∀ q ∈ s.parent_parts, q.status = calculate_part_status q)
    (hn : (s.parent_parts.map (fun q => q.id)).Nodup)
    (hskuN : (((s.parent_parts.filter (fun q => q.supplier_id == u.id)).map
      (fun q => q.sku)).Nodup))
    (hcidN : ∀ p ∈ s.parent_parts.filter (fun q => q.supplier_id == u.id),
      (p.child_parts.map (fun c => c.identifier)).Nodup)
    (hfixc : ∀ p ∈ s.parent_parts.filter (fun q => q.supplier_id == u.id),
      ∀ c ∈ p.child_parts, importUpdateChild c (childRow p c) = c) :
    ∀ (ps : List ParentPart),
      (∀ p ∈ ps, p ∈ s.parent_parts.filter (fun q => q.supplier_id == u.id)) →
      ∀ (R : ImportResult),
      (ps.map (fun p => p.sku)).foldl
          (importGroup u ((s.parent_parts.filter (fun q => q.supplier_id == u.id)).flatMap
            blockOf)) (s, R) =
        (s, { R with
          updated_parents := R.updated_parents + ps.length,
          updated_children := R.updated_children +
            (ps.map (fun p => p.child_parts.length)).sum }) := by
  intro ps
  induction ps with
  | nil => intro _ R; rfl
  | cons p ps ih =>
    intro hsub R
    rw [List.map_cons, List.foldl_cons]
    rw [importGroup_roundtrip s u hstatus hn hskuN (hsub p (List.mem_cons_self p ps))
      (hcidN p (hsub p (List.mem_cons_self p ps)))
      (hfixc p (hsub p (List.mem_cons_self p ps))) R]
    rw [ih (fun y hy => hsub y (List.mem_cons_of_mem p hy))]
    simp [List.sum_cons, Nat.add_assoc, Nat.add_comm 1 ps.length]

/-- Claim C5, amended: re-importing the unmodified export of a supplier's
parts creates nothing (`created_parents = 0` and `created_children = 0`) and
leaves the stored parts unchanged, but the result does NOT report zero
updates: every exported parent is counted once in `updated_parents` (its
first row always carries parent columns, and the import counts any present
columns as an update without comparing values) and every exported child row
is counted once in `updated_children`.  Hypotheses: the caller is the
supplier that owns the parts; stored statuses agree with the derived status;
part ids are unique; the supplier's SKUs are unique and non-empty; within
each part the child identifiers are unique and non-empty (empty strings
would not survive the spreadsheet round trip, which this typed-row model
does not re-encode); stored `weight_lbs` and `is_complete` agree with their
derived values, as every child-writing route leaves them. -/
theorem C5_amended_roundtrip_counts (s : State) (u : User)
    (hrole : u.role = "supplier")
    (hstatus : ∀ q ∈ s.parent_parts, q.status = calculate_part_status q)
    (hn : (s.parent_parts.map (fun q => q.id)).Nodup)
    (hskuN : (((s.parent_parts.filter (fun q => q.supplier_id == u.id)).map
      (fun q => q.sku)).Nodup))
    (_hskuNE : ∀ p ∈ s.parent_parts.filter (fun q => q.supplier_id == u.id), p.sku ≠ "")
    (_hcidNE : ∀ p ∈ s.parent_parts.filter (fun q => q.supplier_id == u.id),
      ∀ c ∈ p.child_parts, c.identifier ≠ "")
    (hcidN : ∀ p ∈ s.parent_parts.filter (fun q => q.supplier_id == u.id),
      (p.child_parts.map (fun c => c.identifier)).Nodup)
    (hlbs : ∀ p ∈ s.parent_parts.filter (fun q => q.supplier_id == u.id),
      ∀ c ∈ p.child_parts, c.weight_lbs = some (c.weight_kg * lbsPerKg))
    (hcomp : ∀ p ∈ s.parent_parts.filter (fun q => q.supplier_id == u.id),
      ∀ c ∈ p.child_parts, c.is_complete = childStoredComplete c) :
    (import_excel s u (exportRows s u)).2 =
      ⟨0, (s.parent_parts.filter (fun q => q.supplier_id == u.id)).length, 0,
        ((s.parent_parts.filter (fun q => q.supplier_id == u.id)).map
          (fun p => p.child_parts.length)).sum, []⟩ ∧
    (import_excel s u (exportRows s u)).1.parent_parts = s.parent_parts := by
  have hfixc : ∀ p ∈ s.parent_parts.filter (fun q => q.supplier_id == u.id),
      ∀ c ∈ p.child_parts, importUpdateChild c (childRow p c) = c :=
    fun p hp c hc => importUpdateChild_childRow p c (hlbs p hp c hc) (hcomp p hp c hc)
  have hrows := exportRows_eq_flatMap s u hrole
  have hskus := uniqueFirstAux_flatMap_blocks
    (s.parent_parts.filter (fun q => q.supplier_id == u.id)) [] hskuN
    (fun p _ => List.not_mem_nil p.sku)
  have hfold := foldl_importGroup_roundtrip s u hstatus hn hskuN hcidN hfixc
    (s.parent_parts.filter (fun q => q.supplier_id == u.id))
    (fun p hp => hp) ⟨0, 0, 0, 0, []⟩
  simp only [import_excel]
  rw [hrows, hskus, hfold]
  constructor
  · simp
  · rfl

/-- A supplier state with one childless parent: a fixture satisfying every
hypothesis of the amended round-trip theorem. -/
def fxLoneParent : ParentPart := ⟨1, "S", "X", none, 9, "incomplete", 0, 0, none, [], []⟩

/-- The state holding just `fxLoneParent`. -/
def fxWState : State := ⟨[fxLoneParent], [], [], 100⟩

theorem C5_amended_roundtrip_counts_witness :
    (import_excel fxWState fxUser (exportRows fxWState fxUser)).2 = ⟨0, 1, 0, 0, []⟩ ∧
    (import_excel fxWState fxUser (exportRows fxWState fxUser)).1.parent_parts =
      fxWState.parent_parts := by
  have hstatus : ∀ q ∈ fxWState.parent_parts, q.status = calculate_part_status q := by
    intro q hq
    rw [List.mem_singleton.mp hq]
    rfl
  have hn : (fxWState.parent_parts.map (fun q => q.id)).Nodup := by decide
  have hskuN : (((fxWState.parent_parts.filter
      (fun q => q.supplier_id == fxUser.id)).map (fun q => q.sku)).Nodup) := by decide
  have hskuNE : ∀ p ∈ fxWState.parent_parts.filter (fun q => q.supplier_id == fxUser.id),
      p.sku ≠ "" := by decide
  have hcidNE : ∀ p ∈ fxWState.parent_parts.filter (fun q => q.supplier_id == fxUser.id),
      ∀ c ∈ p.child_parts, c.identifier ≠ "" := by
    intro p hp c hc
    rw [List.mem_singleton.mp hp] at hc
    exact absurd hc (List.not_mem_nil c)
  have hcidN : ∀ p ∈ fxWState.parent_parts.filter (fun q => q.supplier_id == fxUser.id),
      (p.child_parts.map (fun c => c.identifier)).Nodup := by
    intro p hp
    rw [List.mem_singleton.mp hp]
    exact List.nodup_nil
  have hlbs : ∀ p ∈ fxWState.parent_parts.filter (fun q => q.supplier_id == fxUser.id),
      ∀ c ∈ p.child_parts, c.weight_lbs = some (c.weight_kg * lbsPerKg) := by
    intro p hp c hc
    rw [List.mem_singleton.mp hp] at hc
    exact absurd hc (List.not_mem_nil c)
  have hcomp : ∀ p ∈ fxWState.parent_parts.filter (fun q => q.supplier_id == fxUser.id),
      ∀ c ∈ p.child_parts, c.is_complete = childStoredComplete c := by
    intro p hp c hc
    rw [List.mem_singleton.mp hp] at hc
    exact absurd hc (List.not_mem_nil c)
  exact C5_amended_roundtrip_counts fxWState fxUser rfl hstatus hn hskuN hskuNE hcidNE
    hcidN hlbs hcomp

end Portal
